import Mathlib

/- Verification of the Laravel Jetstream bootstrapper
   (setup_laravel_jetstream_sudo.py): a shallow embedding of its string
   algorithms, command-outcome classification, thread bodies and repair
   finalization, with proofs about the specified behavior.  Python strings
   are modelled as `List Char`; raising `RuntimeError` is modelled with
   `Except String`, the error value being the exception message. -/

namespace Bootstrap

/-- Characters stripped by Python `str.strip()` (the ASCII whitespace characters). -/
def isSpacePy (c : Char) : Bool :=
  c = ' ' || c = '\t' || c = '\n' || c = '\r' || c = '\x0b' || c = '\x0c'

/-- Python `str.lstrip()` on a list of characters. -/
def lstrip (s : List Char) : List Char := s.dropWhile isSpacePy

/-- Python `str.rstrip()` on a list of characters. -/
def rstrip (s : List Char) : List Char := (s.reverse.dropWhile isSpacePy).reverse

/-- Python `str.strip()` on a list of characters. -/
def pyStrip (s : List Char) : List Char := rstrip (lstrip s)

/-- Python `s.startswith(pre)`. -/
def pyStartsWith (s pre : List Char) : Bool := pre.isPrefixOf s

/-- Python substring membership `pat in hay`. -/
def containsSub (pat hay : List Char) : Bool :=
  match hay with
  | [] => pat.isEmpty
  | _ :: rest => pat.isPrefixOf hay || containsSub pat rest

/-- Python `str.lower()`; the stderr patterns being matched are pure ASCII. -/
def pyLower (s : List Char) : List Char := s.map Char.toLower

/-- The four benign stderr patterns recognized by `run_command`. -/
def benignPatterns : List (List Char) :=
  ["database exists".data, "user exists".data,
   "can't create database".data, "duplicate entry".data]

/-- The benign-failure test of `run_command`: the lowered captured stderr
    contains one of the fixed patterns. -/
def benignStderr (stderrFull : List Char) : Bool :=
  benignPatterns.any (fun p => containsSub p (pyLower stderrFull))

/-- Embedding of `run_command` for a command whose process completed with exit
    code `returncode` and captured stderr `stderrFull`: it returns `True` or
    raises `RuntimeError(f"Command failed: {command}")`.  Printing is omitted;
    the `FileNotFoundError` branch (executable missing before any exit code
    exists) is outside this model. -/
def run_command (command : String) (returncode : Int) (stderrFull : List Char)
    (ignore_error_codes : List Int) : Except String Bool :=
  if returncode ≠ 0 then
    if benignStderr stderrFull then Except.ok true
    else if returncode ∈ ignore_error_codes then Except.ok true
    else Except.error ("Command failed: " ++ command)
  else Except.ok true

/-- Success condition of `run_command` written from the specification text:
    exit code 0, or a nonzero exit whose stderr case-insensitively contains a
    benign pattern, or a nonzero exit code that is ignorable. -/
def runCommandSuccessSpec (returncode : Int) (stderrFull : List Char)
    (ignore_error_codes : List Int) : Prop :=
  returncode = 0 ∨
  (returncode ≠ 0 ∧ ∃ p ∈ benignPatterns, containsSub p (pyLower stderrFull) = true) ∨
  (returncode ≠ 0 ∧ returncode ∈ ignore_error_codes)

instance runCommandSuccessSpecDecidable (returncode : Int) (stderrFull : List Char)
    (ignore_error_codes : List Int) :
    Decidable (runCommandSuccessSpec returncode stderrFull ignore_error_codes) := by
  unfold runCommandSuccessSpec; exact inferInstance

/-- `string.digits`. -/
def string_digits : List Char := "0123456789".data

/-- `string.ascii_uppercase`. -/
def string_ascii_uppercase : List Char := "ABCDEFGHIJKLMNOPQRSTUVWXYZ".data

/-- `string.ascii_lowercase`. -/
def string_ascii_lowercase : List Char := "abcdefghijklmnopqrstuvwxyz".data

/-- The shell-safe and .env-safe special characters used by
    `generate_secure_password`. -/
def special_chars : List Char := "@#%^-_=+:,.~".data

/-- `random.choice(seq)` driven by an abstract random stream `r`: the `k`-th
    call picks the element at index `r k` reduced modulo the length. -/
def randomChoice (r : Nat → Nat) (k : Nat) (seq : List Char) : Char :=
  seq.getD (r k % seq.length) 'a'

/-- Embedding of `generate_secure_password`, parameterized by the random stream
    `r` and by `shuffle`, the permutation that `random.shuffle` applies to the
    assembled character list before joining. -/
def generate_secure_password (length : Nat) (r : Nat → Nat)
    (shuffle : List Char → List Char) : List Char :=
  let len := if length < 12 then 12 else length
  let password := [randomChoice r 0 string_digits, randomChoice r 1 string_ascii_uppercase,
                   randomChoice r 2 string_ascii_lowercase, randomChoice r 3 special_chars]
  let all_chars := string_digits ++ string_ascii_uppercase ++ string_ascii_lowercase ++ special_chars
  let password := password ++ (List.range (len - password.length)).map
      (fun i => randomChoice r (4 + i) all_chars)
  shuffle password

/-- One raw line of a config file, as produced by `f.readlines()`. -/
abbrev Line := List Char

/-- The protected identity key of the `.env` merge. -/
def APP_KEY : Line := "APP_KEY".data

/-- Whether line `l` names key `k`: `line.strip().startswith(f"{key}=")`. -/
def namesB (l k : Line) : Bool := pyStartsWith (pyStrip l) (k ++ ['='])

/-- First managed pair whose `key=` prefix matches the stripped line: the inner
    `for key in env_vars` loop of the merge, with its `break`. -/
def findMatch (env_vars : List (Line × Line)) (l : Line) : Option (Line × Line) :=
  env_vars.find? (fun kv => namesB l kv.1)

/-- The replacement or appended line `f"{key}={value}\n"`. -/
def mkLine (k v : Line) : Line := k ++ '=' :: v ++ ['\n']

/-- Processing of one existing line of the `.env` file: the matching loop
    followed by the `APP_KEY` special case and the `elif not matched` copy.
    Returns the emitted lines and the updated `updated_keys` set (modelled as a
    list).  `env_vars` is a Python dict, so its keys are distinct and the value
    written, `env_vars[key]`, is the matched pair's own value. -/
def processLine (env_vars : List (Line × Line)) (l : Line) (updated : List Line) :
    List Line × List Line :=
  match findMatch env_vars l with
  | some (k, v) =>
    let updated' := k :: updated
    if namesB l APP_KEY && !(updated'.contains APP_KEY) then
      ([mkLine k v, l], APP_KEY :: updated')
    else
      ([mkLine k v], updated')
  | none =>
    if namesB l APP_KEY && !(updated.contains APP_KEY) then
      ([l], APP_KEY :: updated)
    else
      ([l], updated)

/-- The `for line in lines` loop of the merge. -/
def mergeBody (env_vars : List (Line × Line)) :
    List Line → List Line → List Line × List Line
  | [], updated => ([], updated)
  | l :: ls, updated =>
    let p := processLine env_vars l updated
    let q := mergeBody env_vars ls p.2
    (p.1 ++ q.1, q.2)

/-- Python `line.endswith('\n')`. -/
def endsWithNewline (l : Line) : Bool := l.getLast? = some '\n'

/-- The guard `new_env_lines and not new_env_lines[-1].endswith('\n')`. -/
def needsFiller (out : List Line) : Bool :=
  match out.getLast? with
  | some last => !(endsWithNewline last)
  | none => false

/-- The `for key, value in env_vars.items()` append phase: keys not yet applied
    are appended, with a lone newline filler inserted first if the current last
    line is not newline-terminated. -/
def appendMissing (env_vars : List (Line × Line)) (out : List Line)
    (updated : List Line) : List Line :=
  match env_vars with
  | [] => out
  | (k, v) :: rest =>
    if updated.contains k then appendMissing rest out updated
    else appendMissing rest
      ((if needsFiller out then out ++ [['\n']] else out) ++ [mkLine k v]) updated

/-- The whole `.env` line merge of `deploy_codebase_thread_target`
    (read lines, rewrite managed lines, append missing managed keys). -/
def mergeEnvLines (env_vars : List (Line × Line)) (lines : List Line) : List Line :=
  let p := mergeBody env_vars lines []
  appendMissing env_vars p.1 p.2

/-- Splitting file bytes into lines the way Python `f.readlines()` does:
    each line keeps its terminating newline; a last fragment with no newline is
    its own line; no empty trailing line. -/
def splitLinesAux (acc : List Char) : List Char → List (List Char)
  | [] => if acc.isEmpty then [] else [acc.reverse]
  | c :: cs =>
    if c = '\n' then (acc.reverse ++ ['\n']) :: splitLinesAux [] cs
    else splitLinesAux (c :: acc) cs

/-- Python `f.readlines()` on the file contents. -/
def splitLines (s : List Char) : List (List Char) := splitLinesAux [] s

/-- The patch as a function on the file bytes: `f.readlines()`, the merge, then
    `f.writelines(new_env_lines)` (plain concatenation). -/
def mergeEnvBytes (env_vars : List (Line × Line)) (s : List Char) : List Char :=
  (mergeEnvLines env_vars (splitLines s)).flatten

/-- The managed `env_vars` dict built in `deploy_codebase_thread_target`, in
    insertion order, parameterized by the formatted app name and the database
    credentials.  `APP_KEY` is deliberately absent (left to `artisan
    key:generate`). -/
def env_vars (app db_name db_user db_pass : Line) : List (Line × Line) :=
  [("APP_NAME".data, '\'' :: app ++ ['\'']),
   ("APP_ENV".data, "local".data),
   ("APP_DEBUG".data, "true".data),
   ("APP_URL".data, "http://localhost".data),
   ("LOG_CHANNEL".data, "stack".data),
   ("LOG_LEVEL".data, "debug".data),
   ("DB_CONNECTION".data, "mysql".data),
   ("DB_HOST".data, "127.0.0.1".data),
   ("DB_PORT".data, "3306".data),
   ("DB_DATABASE".data, db_name),
   ("DB_USERNAME".data, db_user),
   ("DB_PASSWORD".data, db_pass),
   ("BROADCAST_DRIVER".data, "log".data),
   ("CACHE_DRIVER".data, "file".data),
   ("FILESYSTEM_DISK".data, "local".data),
   ("QUEUE_CONNECTION".data, "sync".data),
   ("SESSION_DRIVER".data, "file".data),
   ("SESSION_LIFETIME".data, "120".data),
   ("MEMCACHED_HOST".data, "127.0.0.1".data),
   ("REDIS_HOST".data, "127.0.0.1".data),
   ("REDIS_PORT".data, "6379".data),
   ("REDIS_PASSWORD".data, "null".data),
   ("MAIL_MAILER".data, "log".data),
   ("MAIL_HOST".data, "mailpit".data),
   ("MAIL_PORT".data, "1025".data),
   ("MAIL_USERNAME".data, "null".data),
   ("MAIL_PASSWORD".data, "null".data),
   ("MAIL_ENCRYPTION".data, "null".data),
   ("MAIL_FROM_ADDRESS".data, "hello@example.com".data),
   ("MAIL_FROM_NAME".data, '\'' :: app ++ ['\'']),
   ("AWS_ACCESS_KEY_ID".data, "".data),
   ("AWS_SECRET_ACCESS_KEY".data, "".data),
   ("AWS_DEFAULT_REGION".data, "us-east-1".data),
   ("AWS_BUCKET".data, "".data),
   ("PUSHER_APP_ID".data, "".data),
   ("PUSHER_APP_KEY".data, "".data),
   ("PUSHER_APP_SECRET".data, "".data),
   ("PUSHER_HOST".data, "null".data),
   ("PUSHER_PORT".data, "443".data),
   ("PUSHER_SCHEME".data, "https".data),
   ("VITE_APP_NAME".data, '\'' :: app ++ ['\'']),
   ("VITE_PUSHER_APP_KEY".data, "'$\x7bPUSHER_APP_KEY\x7d'".data),
   ("VITE_PUSHER_HOST".data, "'$\x7bPUSHER_HOST\x7d'".data),
   ("VITE_PUSHER_PORT".data, "'$\x7bPUSHER_PORT\x7d'".data),
   ("VITE_PUSHER_SCHEME".data, "'$\x7bPUSHER_SCHEME\x7d'".data),
   ("VITE_PUSHER_APP_CLUSTER".data, "mt1".data)]

/-- Events observable on the shared gate and status registry. -/
inductive Ev where
  | gateSet : Ev
  | record : String → Bool → Ev
deriving DecidableEq

/-- Shared state of one run: the `threading.Event` flag (`db_ready_event`), the
    `thread_status` dictionary, and the ordered trace of signal/record events. -/
structure GateState where
  signaled : Bool
  registry : List (String × Bool)
  trace : List Ev
deriving DecidableEq

/-- The state at the start of a run: event unset, empty status dictionary. -/
def initialGate : GateState := { signaled := false, registry := [], trace := [] }

/-- `db_ready_event.set()`. -/
def eventSet (s : GateState) : GateState :=
  { s with signaled := true, trace := s.trace ++ [Ev.gateSet] }

/-- Python dict write `d[k] = b`. -/
def dictSet (d : List (String × Bool)) (k : String) (b : Bool) : List (String × Bool) :=
  if d.any (fun kv => kv.1 = k) then d.map (fun kv => if kv.1 = k then (k, b) else kv)
  else d ++ [(k, b)]

/-- Python dict read `d.get(k)` (`none` when the key is absent). -/
def dictGet (d : List (String × Bool)) (k : String) : Option Bool :=
  (d.find? (fun kv => kv.1 = k)).map (fun kv => kv.2)

/-- Python dict read with default, `d.get(k, dflt)`. -/
def dictGetD (d : List (String × Bool)) (k : String) (dflt : Bool) : Bool :=
  (dictGet d k).getD dflt

/-- `thread_status[thread_name] = b`, also recorded in the trace. -/
def recordStatus (s : GateState) (name : String) (b : Bool) : GateState :=
  { s with registry := dictSet s.registry name b, trace := s.trace ++ [Ev.record name b] }

/-- The fixed name of the Phase 1 thread. -/
def mysqlThreadName : String := "MySQL_Setup_Thread"

/-- The fixed name of the Phase 2 thread. -/
def deployThreadName : String := "Codebase_Deployment_Thread"

/-- Running the five `sudo mysql -e …` statements of Phase 1 through
    `run_command`: `steps` lists, per command, its text and the (exit code,
    stderr) its process produced; the first fatal one aborts the loop with its
    `RuntimeError`. -/
def runSteps : List (String × Int × List Char) → Except String Unit
  | [] => Except.ok ()
  | (c, rc, st) :: rest =>
    match run_command c rc st [] with
    | Except.error e => Except.error e
    | Except.ok _ => runSteps rest

/-- Embedding of `setup_mysql_thread_target`.  In the `try` body, after all five
    commands succeed, `db_ready_event.set()` is executed first and
    `thread_status[thread_name] = True` second (source order, lines 109–110);
    `except Exception` records `False`; the `finally` block sets the event iff it
    is not yet set.  The `Except.ok` result expresses that the function itself
    never re-raises. -/
def setup_mysql_thread_target (steps : List (String × Int × List Char))
    (s₀ : GateState) : Except String GateState :=
  let afterExcept : GateState :=
    match runSteps steps with
    | Except.ok _ => recordStatus (eventSet s₀) mysqlThreadName true
    | Except.error _ => recordStatus s₀ mysqlThreadName false
  Except.ok (if afterExcept.signaled then afterExcept else eventSet afterExcept)

/-- Events of the Phase 2 / repair-finalization step sequences. -/
inductive DEv where
  | cmd : String → DEv
  | chdirStep : DEv
  | patchEnv : DEv
  | gateWait : DEv
  | record : String → Bool → DEv
deriving DecidableEq

/-- Short-circuiting sequencing of steps that accumulate a trace and may carry
    a raised `RuntimeError`. -/
def andThen (st : List DEv × Option String) (f : List DEv → List DEv × Option String) :
    List DEv × Option String :=
  match st.2 with
  | some _ => st
  | none => f st.1

/-- One `run_command` call in a step sequence: the command is executed (and so
    appears in the trace) and its fatal error, if any, is carried onward. -/
def runStepD (c : String) (res : Int × List Char) (ignore_error_codes : List Int)
    (tr : List DEv) : List DEv × Option String :=
  match run_command c res.1 res.2 ignore_error_codes with
  | Except.ok _ => (tr ++ [DEv.cmd c], none)
  | Except.error e => (tr ++ [DEv.cmd c], some e)

/-- A `try/except RuntimeError: continue` block: its trace is kept, a carried
    error is swallowed. -/
def recover (st : List DEv × Option String) : List DEv := st.1

/-- Abstract run of Phase 2 (`deploy_codebase_thread_target`): per external
    command the (exit code, stderr) its process produced, whether the `.env`
    read/write I/O succeeded, the `.env` lines read, the project parameters, and
    the contents of `thread_status` as observed after `db_ready_event.wait()`
    returned. -/
structure DeployEnv where
  app_name : Line
  db_name : Line
  db_user : Line
  db_pass : Line
  composer_create : Int × List Char
  key_generate : Int × List Char
  env_io_ok : Bool
  env_lines : List Line
  jetstream_require : Int × List Char
  jetstream_install : Int × List Char
  npm_install : Int × List Char
  npm_build : Int × List Char
  statusAtWake : List (String × Bool)
  migrate : Int × List Char
  optimize_clear : Int × List Char

/-- The `.env` content written at the patch step of Phase 2. -/
def deployMergedEnv (env : DeployEnv) : List Line :=
  mergeEnvLines (env_vars env.app_name env.db_name env.db_user env.db_pass) env.env_lines

/-- The `try` body of `deploy_codebase_thread_target`: scaffold creation,
    directory change, key generation, the `.env` merge (its output is
    `deployMergedEnv`), dependency installation and build, then the gate wait,
    the upstream-status guard, migration and cache reset, in source order. -/
def deployBody (env : DeployEnv) : List DEv × Option String :=
  andThen (runStepD "composer create-project laravel/laravel" env.composer_create [] []) fun tr =>
  andThen (tr ++ [DEv.chdirStep], none) fun tr =>
  andThen (runStepD "php artisan key:generate" env.key_generate [] tr) fun tr =>
  andThen (if env.env_io_ok then (tr ++ [DEv.patchEnv], none)
           else (tr, some "env file io failed")) fun tr =>
  andThen (runStepD "composer require laravel/jetstream" env.jetstream_require [] tr) fun tr =>
  andThen (runStepD "php artisan jetstream:install livewire --teams --dark"
    env.jetstream_install [] tr) fun tr =>
  andThen (runStepD "npm install" env.npm_install [] tr) fun tr =>
  andThen (runStepD "npm run build" env.npm_build [] tr) fun tr =>
  andThen (tr ++ [DEv.gateWait], none) fun tr =>
  andThen (if dictGetD env.statusAtWake mysqlThreadName false then (tr, none)
           else (tr, some "Database setup failed in MySQL_Setup_Thread, cannot proceed with migration."))
    fun tr =>
  andThen (runStepD "php artisan migrate" env.migrate [] tr) fun tr =>
  runStepD "php artisan optimize:clear" env.optimize_clear [] tr

/-- Embedding of `deploy_codebase_thread_target`: the `try` body followed by the
    status record (`True` when the body carried no error, `False` in
    `except Exception`). -/
def deploy_codebase_thread_target (env : DeployEnv) : List DEv × Bool :=
  let p := deployBody env
  (p.1 ++ [DEv.record deployThreadName p.2.isNone], p.2.isNone)

/-- Abstract run of `finalize_laravel_installation`: whether the `artisan` and
    `.env` files exist, and per command the (exit code, stderr) its process
    produced. -/
structure FinalizeEnv where
  artisan_exists : Bool
  env_exists : Bool
  php_version : Int × List Char
  config_clear : Int × List Char
  artisan_version : Int × List Char
  migrate_status : Int × List Char
  cache_table : Int × List Char
  migrate_force : Int × List Char
  migrate_plain : Int × List Char
  key_generate : Int × List Char
  cache_clear : Int × List Char
  optimize_clear : Int × List Char

/-- The migration step of the repair finalization: `php artisan migrate --force`
    and, should it fail, the unforced fallback; if that also fails, the raised
    error wraps the original forced-mode error `e`. -/
def migrateWithFallback (env : FinalizeEnv) (tr : List DEv) : List DEv × Option String :=
  match runStepD "php artisan migrate --force" env.migrate_force [] tr with
  | (tr', none) => (tr', none)
  | (tr', some e) =>
    match runStepD "php artisan migrate" env.migrate_plain [] tr' with
    | (tr'', none) => (tr'', none)
    | (tr'', some _) => (tr'', some ("Database migrations failed: " ++ e))

/-- The `try` body of `finalize_laravel_installation`, in source order.  The
    `php artisan --version` / `php artisan migrate:status` pair and the
    `php artisan cache:table` call sit in their own `try/except` blocks whose
    failures are tolerated; `php artisan cache:clear` is called with
    `ignore_error_codes=[1]`; everything else propagates its fatal error. -/
def finalizeBody (env : FinalizeEnv) : List DEv × Option String :=
  andThen (runStepD "php --version" env.php_version [] []) fun tr =>
  andThen (runStepD "php artisan config:clear" env.config_clear [] tr) fun tr =>
  andThen (recover (andThen (runStepD "php artisan --version" env.artisan_version [] tr)
    fun tr2 => runStepD "php artisan migrate:status" env.migrate_status [] tr2), none) fun tr =>
  andThen (recover (runStepD "php artisan cache:table" env.cache_table [] tr), none) fun tr =>
  andThen (migrateWithFallback env tr) fun tr =>
  andThen (runStepD "php artisan key:generate --force" env.key_generate [] tr) fun tr =>
  andThen (runStepD "php artisan cache:clear" env.cache_clear [1] tr) fun tr =>
  runStepD "php artisan optimize:clear" env.optimize_clear [] tr

/-- Embedding of `finalize_laravel_installation`: the structure validation may
    raise out of the function; otherwise the result is the returned boolean, the
    executed-step trace, and the error message the outer `except Exception`
    caught and logged (if any). -/
def finalize_laravel_installation (env : FinalizeEnv) :
    Except String (Bool × List DEv × Option String) :=
  if !env.artisan_exists then Except.error "Laravel artisan file not found"
  else if !env.env_exists then Except.error "Laravel .env file not found"
  else
    match finalizeBody env with
    | (tr, none) => Except.ok (true, tr, none)
    | (tr, some e) => Except.ok (false, tr, some e)

/-- The temporal property claimed of the provisioner: whenever the gate-set
    event occurs in the run's trace, some status-record event strictly
    precedes it. -/
def signalAfterRecord (tr : List Ev) : Prop :=
  ∀ i : Nat, tr[i]? = some Ev.gateSet →
    ∃ j : Nat, j < i ∧ ∃ name b, tr[j]? = some (Ev.record name b)

/-- The all-success provisioning run: the five statements exit 0. -/
def allOkSteps : List (String × Int × List Char) :=
  [("sudo mysql -e create-database", 0, []),
   ("sudo mysql -e create-user", 0, []),
   ("sudo mysql -e alter-user", 0, []),
   ("sudo mysql -e grant", 0, []),
   ("sudo mysql -e flush", 0, [])]

/-- A run whose first provisioning statement fails fatally. -/
def oneFatalSteps : List (String × Int × List Char) :=
  [("sudo mysql -e create-database", 1, "access denied".data),
   ("sudo mysql -e create-user", 0, []),
   ("sudo mysql -e alter-user", 0, []),
   ("sudo mysql -e grant", 0, []),
   ("sudo mysql -e flush", 0, [])]

/-- A Phase 2 run where every command succeeds but the upstream status is
    absent at wake. -/
def absentStatusDeployEnv : DeployEnv :=
  { app_name := [], db_name := [], db_user := [], db_pass := [],
    composer_create := (0, []), key_generate := (0, []), env_io_ok := true,
    env_lines := [], jetstream_require := (0, []), jetstream_install := (0, []),
    npm_install := (0, []), npm_build := (0, []), statusAtWake := [],
    migrate := (0, []), optimize_clear := (0, []) }

/-- A finalization run where only `php artisan config:clear` fails. -/
def configClearFailEnv : FinalizeEnv :=
  { artisan_exists := true, env_exists := true,
    php_version := (0, []), config_clear := (1, "cfg error".data),
    artisan_version := (0, []), migrate_status := (0, []), cache_table := (0, []),
    migrate_force := (0, []), migrate_plain := (0, []), key_generate := (0, []),
    cache_clear := (0, []), optimize_clear := (0, []) }

/-- A finalization run where both migration modes fail. -/
def migrateFailEnv : FinalizeEnv :=
  { artisan_exists := true, env_exists := true,
    php_version := (0, []), config_clear := (0, []),
    artisan_version := (0, []), migrate_status := (0, []), cache_table := (0, []),
    migrate_force := (1, "sql error".data), migrate_plain := (1, "other error".data),
    key_generate := (0, []), cache_clear := (0, []), optimize_clear := (0, []) }

/-- The managed keys of a managed set, in order. -/
def keysOf (S : List (Line × Line)) : List Line := S.map Prod.fst

/-- A well-formed managed key: nonempty, free of `=` and of whitespace —
    what a key of a line-oriented `KEY=VALUE` config format is. -/
def goodKey (k : Line) : Prop := k ≠ [] ∧ ∀ c ∈ k, isSpacePy c = false ∧ c ≠ '='

instance goodKeyDecidable (k : Line) : Decidable (goodKey k) := by
  unfold goodKey
  exact inferInstance

/-- All keys of the managed set are well formed. -/
def GoodKeys (S : List (Line × Line)) : Prop := ∀ kv ∈ S, goodKey kv.1

/-- A well-formed managed set: well-formed keys, single-line values, distinct
    keys (a Python dict cannot repeat keys). -/
def goodEnv (S : List (Line × Line)) : Prop :=
  (∀ kv ∈ S, goodKey kv.1 ∧ '\n' ∉ kv.2) ∧ (keysOf S).Nodup

/-- The single line that one input line is rewritten to by the merge. -/
def lineOut (S : List (Line × Line)) (l : Line) : Line :=
  match findMatch S l with
  | some (k, v) => mkLine k v
  | none => l

/-- The `updated_keys` set after one line, as a function of the set before. -/
def updOut (S : List (Line × Line)) (l : Line) (u : List Line) : List Line :=
  match findMatch S l with
  | some (k, _) => k :: u
  | none => if namesB l APP_KEY && !(u.contains APP_KEY) then APP_KEY :: u else u

/-- Managed pairs matched by no input line: those the append phase adds. -/
def missingF (S : List (Line × Line)) (F : List Line) : List (Line × Line) :=
  S.filter (fun kv => !(F.any (fun l => namesB l kv.1)))

/-- Number of lines naming key `k`. -/
def countNaming (k : Line) (ls : List Line) : Nat :=
  (ls.filter (fun l => namesB l k)).length

/-- A properly terminated line: ends in the only newline it contains. -/
def ProperLine (l : Line) : Prop := ∃ m, l = m ++ ['\n'] ∧ '\n' ∉ m

/-- A nonempty newline-free fragment (a last line with no terminator). -/
def TailLine (l : Line) : Prop := l ≠ [] ∧ '\n' ∉ l

/- ------------------------------------------------------------------ -/
/- Theorems. -/
/- ------------------------------------------------------------------ -/

theorem getD_mem_of_lt {l : List Char} {n : Nat} {d : Char} (h : n < l.length) :
    l.getD n d ∈ l := by
  induction l generalizing n with
  | nil => simp at h
  | cons a t ih =>
    cases n with
    | zero => simp
    | succ m =>
      simp only [List.getD_cons_succ, List.mem_cons]
      exact Or.inr (ih (by simpa using Nat.lt_of_succ_lt_succ h))

theorem randomChoice_mem (r : Nat → Nat) (k : Nat) {seq : List Char} (h : seq ≠ []) :
    randomChoice r k seq ∈ seq :=
  getD_mem_of_lt (Nat.mod_lt _ (List.length_pos.mpr h))

/-- Claim C5: `run_command` returns success exactly when the exit code is 0, or
    the exit is nonzero with stderr case-insensitively containing one of the four
    benign patterns, or the nonzero exit code is an ignorable one; in every other
    case it raises a fatal error carrying the failed command. -/
theorem run_command_classification (command : String) (returncode : Int)
    (stderrFull : List Char) (ignore_error_codes : List Int) :
    (run_command command returncode stderrFull ignore_error_codes = Except.ok true ↔
      runCommandSuccessSpec returncode stderrFull ignore_error_codes) ∧
    (¬ runCommandSuccessSpec returncode stderrFull ignore_error_codes →
      run_command command returncode stderrFull ignore_error_codes =
        Except.error ("Command failed: " ++ command)) := by
  unfold run_command runCommandSuccessSpec benignStderr
  by_cases h0 : returncode = 0 <;>
    by_cases hb : benignPatterns.any (fun p => containsSub p (pyLower stderrFull)) = true <;>
      by_cases hi : returncode ∈ ignore_error_codes <;>
        simp_all [List.any_eq_true]

/-- Witness for C5 at a concrete fatal input. -/
theorem run_command_classification_witness :
    ¬ runCommandSuccessSpec 1 "boom".data [] ∧
    run_command "mysql" 1 "boom".data [] = Except.error ("Command failed: " ++ "mysql") :=
  ⟨by decide, (run_command_classification "mysql" 1 "boom".data []).2 (by decide)⟩

/-- Claim C8: for every requested length `L`, the generated password has length
    `max L 12`, contains at least one digit, one uppercase letter, one lowercase
    letter and one safe special character, and contains no character outside the
    union of those four classes. -/
theorem generate_secure_password_spec (length : Nat) (r : Nat → Nat)
    (shuffle : List Char → List Char) (hshuffle : ∀ l, (shuffle l).Perm l) :
    (generate_secure_password length r shuffle).length = max length 12 ∧
    (∃ c ∈ generate_secure_password length r shuffle, c ∈ string_digits) ∧
    (∃ c ∈ generate_secure_password length r shuffle, c ∈ string_ascii_uppercase) ∧
    (∃ c ∈ generate_secure_password length r shuffle, c ∈ string_ascii_lowercase) ∧
    (∃ c ∈ generate_secure_password length r shuffle, c ∈ special_chars) ∧
    (∀ c ∈ generate_secure_password length r shuffle,
      c ∈ string_digits ++ string_ascii_uppercase ++ string_ascii_lowercase ++ special_chars) := by
  have hperm := hshuffle ([randomChoice r 0 string_digits, randomChoice r 1 string_ascii_uppercase,
      randomChoice r 2 string_ascii_lowercase, randomChoice r 3 special_chars] ++
      (List.range ((if length < 12 then 12 else length) - 4)).map
        (fun i => randomChoice r (4 + i)
          (string_digits ++ string_ascii_uppercase ++ string_ascii_lowercase ++ special_chars)))
  have hgen : generate_secure_password length r shuffle =
      shuffle ([randomChoice r 0 string_digits, randomChoice r 1 string_ascii_uppercase,
        randomChoice r 2 string_ascii_lowercase, randomChoice r 3 special_chars] ++
        (List.range ((if length < 12 then 12 else length) - 4)).map
          (fun i => randomChoice r (4 + i)
            (string_digits ++ string_ascii_uppercase ++ string_ascii_lowercase ++ special_chars))) := rfl
  rw [hgen]
  have hmem := fun c => (hperm.mem_iff (a := c))
  constructor
  · rw [hperm.length_eq]
    simp only [List.length_append, List.length_map, List.length_range, List.length_cons,
      List.length_nil]
    by_cases h : length < 12 <;> simp [h] <;> omega
  refine ⟨⟨randomChoice r 0 string_digits, ?_, randomChoice_mem r 0 (by decide)⟩,
    ⟨randomChoice r 1 string_ascii_uppercase, ?_, randomChoice_mem r 1 (by decide)⟩,
    ⟨randomChoice r 2 string_ascii_lowercase, ?_, randomChoice_mem r 2 (by decide)⟩,
    ⟨randomChoice r 3 special_chars, ?_, randomChoice_mem r 3 (by decide)⟩, ?_⟩
  · rw [hmem]; simp
  · rw [hmem]; simp
  · rw [hmem]; simp
  · rw [hmem]; simp
  · intro c hc
    rw [hmem] at hc
    rcases List.mem_append.mp hc with h4 | hrest
    · simp only [List.mem_cons, List.not_mem_nil, or_false] at h4
      rcases h4 with h | h | h | h
      · subst h
        exact List.mem_append.mpr (Or.inl (List.mem_append.mpr (Or.inl
          (List.mem_append.mpr (Or.inl (randomChoice_mem r 0 (by decide)))))))
      · subst h
        exact List.mem_append.mpr (Or.inl (List.mem_append.mpr (Or.inl
          (List.mem_append.mpr (Or.inr (randomChoice_mem r 1 (by decide)))))))
      · subst h
        exact List.mem_append.mpr (Or.inl (List.mem_append.mpr (Or.inr
          (randomChoice_mem r 2 (by decide)))))
      · subst h
        exact List.mem_append.mpr (Or.inr (randomChoice_mem r 3 (by decide)))
    · rcases List.mem_map.mp hrest with ⟨i, _, hi⟩
      rw [← hi]
      exact randomChoice_mem r (4 + i) (by decide)

/-- Witness for C8 with the identity permutation and a constant random stream. -/
theorem generate_secure_password_spec_witness :
    (∀ l : List Char, (id l).Perm l) ∧
    ((generate_secure_password 8 (fun _ => 0) id).length = max 8 12 ∧
    (∃ c ∈ generate_secure_password 8 (fun _ => 0) id, c ∈ string_digits) ∧
    (∃ c ∈ generate_secure_password 8 (fun _ => 0) id, c ∈ string_ascii_uppercase) ∧
    (∃ c ∈ generate_secure_password 8 (fun _ => 0) id, c ∈ string_ascii_lowercase) ∧
    (∃ c ∈ generate_secure_password 8 (fun _ => 0) id, c ∈ special_chars) ∧
    (∀ c ∈ generate_secure_password 8 (fun _ => 0) id,
      c ∈ string_digits ++ string_ascii_uppercase ++ string_ascii_lowercase ++ special_chars)) :=
  ⟨fun l => List.Perm.refl l,
    generate_secure_password_spec 8 (fun _ => 0) id (fun l => List.Perm.refl l)⟩

/-- Claim C1 is refuted by the code: in the all-success run the provisioner
    executes `db_ready_event.set()` first and `thread_status[...] = True` second,
    so the trace is gate-set then record and the gate is momentarily signaled
    with no recorded status. -/
theorem setup_mysql_signals_before_recording :
    setup_mysql_thread_target allOkSteps initialGate =
      Except.ok { signaled := true,
                  registry := [(mysqlThreadName, true)],
                  trace := [Ev.gateSet, Ev.record mysqlThreadName true] } ∧
    ¬ signalAfterRecord [Ev.gateSet, Ev.record mysqlThreadName true] := by
  constructor
  · rfl
  · intro h
    rcases h 0 rfl with ⟨j, hj, _⟩
    omega

/-- Claim C2: if a provisioning step raises a fatal error,
    `setup_mysql_thread_target` catches it at its own level, records overall
    status `False` under its fixed task name, returns without re-raising, and
    the gate is signaled (after the record) before the task returns. -/
theorem setup_mysql_fatal_caught (steps : List (String × Int × List Char)) (e : String)
    (h : runSteps steps = Except.error e) :
    ∃ s, setup_mysql_thread_target steps initialGate = Except.ok s ∧
      dictGet s.registry mysqlThreadName = some false ∧
      s.signaled = true ∧
      s.trace = [Ev.record mysqlThreadName false, Ev.gateSet] := by
  unfold setup_mysql_thread_target
  rw [h]
  exact ⟨_, rfl, rfl, rfl, rfl⟩

/-- Witness for C2 at a concrete fatal run. -/
theorem setup_mysql_fatal_caught_witness :
    runSteps oneFatalSteps = Except.error ("Command failed: " ++ "sudo mysql -e create-database") ∧
    (∃ s, setup_mysql_thread_target oneFatalSteps initialGate = Except.ok s ∧
      dictGet s.registry mysqlThreadName = some false ∧
      s.signaled = true ∧
      s.trace = [Ev.record mysqlThreadName false, Ev.gateSet]) :=
  ⟨rfl, setup_mysql_fatal_caught oneFatalSteps _ rfl⟩

theorem andThen_none (tr : List DEv) (f : List DEv → List DEv × Option String) :
    andThen (tr, none) f = f tr := rfl

theorem andThen_some (tr : List DEv) (e : String)
    (f : List DEv → List DEv × Option String) :
    andThen (tr, some e) f = (tr, some e) := rfl

theorem runStepD_ok (c : String) (res : Int × List Char) (ig : List Int)
    (tr : List DEv) (b : Bool) (h : run_command c res.1 res.2 ig = Except.ok b) :
    runStepD c res ig tr = (tr ++ [DEv.cmd c], none) := by
  unfold runStepD; rw [h]

theorem runStepD_err (c : String) (res : Int × List Char) (ig : List Int)
    (tr : List DEv) (e : String) (h : run_command c res.1 res.2 ig = Except.error e) :
    runStepD c res ig tr = (tr ++ [DEv.cmd c], some e) := by
  unfold runStepD; rw [h]

/-- Claim C6: Phase 2 never executes the schema migration before the gate wait,
    and when the provisioner's recorded status is false or absent at wake it
    raises and executes neither the migration nor the cache reset. -/
theorem deploy_migration_guarded (env : DeployEnv) :
    DEv.cmd "php artisan migrate" ∉
      (deploy_codebase_thread_target env).1.takeWhile (fun ev => ev != DEv.gateWait) ∧
    (dictGet env.statusAtWake mysqlThreadName ≠ some true →
      DEv.cmd "php artisan migrate" ∉ (deploy_codebase_thread_target env).1 ∧
      DEv.cmd "php artisan optimize:clear" ∉ (deploy_codebase_thread_target env).1) := by
  have hguard : dictGet env.statusAtWake mysqlThreadName ≠ some true →
      dictGetD env.statusAtWake mysqlThreadName false = false := by
    intro hne
    unfold dictGetD
    cases hdg : dictGet env.statusAtWake mysqlThreadName with
    | none => rfl
    | some b =>
      cases b with
      | false => rfl
      | true => exact absurd hdg hne
  unfold deploy_codebase_thread_target deployBody
  cases hc1 : run_command "composer create-project laravel/laravel" env.composer_create.1
      env.composer_create.2 [] with
  | error e =>
    rw [runStepD_err _ _ _ _ _ hc1]
    simp only [andThen_some]
    dsimp only [Option.isNone]
    exact ⟨by decide, fun _ => ⟨by decide, by decide⟩⟩
  | ok b =>
    rw [runStepD_ok _ _ _ _ _ hc1]
    simp only [andThen_none]
    cases hc2 : run_command "php artisan key:generate" env.key_generate.1
        env.key_generate.2 [] with
    | error e =>
      rw [runStepD_err _ _ _ _ _ hc2]
      simp only [andThen_some]
      dsimp only [Option.isNone]
      exact ⟨by decide, fun _ => ⟨by decide, by decide⟩⟩
    | ok b2 =>
      rw [runStepD_ok _ _ _ _ _ hc2]
      simp only [andThen_none]
      by_cases hio : env.env_io_ok
      · simp only [hio, if_true, andThen_none]
        cases hc3 : run_command "composer require laravel/jetstream" env.jetstream_require.1
            env.jetstream_require.2 [] with
        | error e =>
          rw [runStepD_err _ _ _ _ _ hc3]
          simp only [andThen_some]
          dsimp only [Option.isNone]
          exact ⟨by decide, fun _ => ⟨by decide, by decide⟩⟩
        | ok b3 =>
          rw [runStepD_ok _ _ _ _ _ hc3]
          simp only [andThen_none]
          cases hc4 : run_command "php artisan jetstream:install livewire --teams --dark"
              env.jetstream_install.1 env.jetstream_install.2 [] with
          | error e =>
            rw [runStepD_err _ _ _ _ _ hc4]
            simp only [andThen_some]
            dsimp only [Option.isNone]
            exact ⟨by decide, fun _ => ⟨by decide, by decide⟩⟩
          | ok b4 =>
            rw [runStepD_ok _ _ _ _ _ hc4]
            simp only [andThen_none]
            cases hc5 : run_command "npm install" env.npm_install.1 env.npm_install.2 [] with
            | error e =>
              rw [runStepD_err _ _ _ _ _ hc5]
              simp only [andThen_some]
              dsimp only [Option.isNone]
              exact ⟨by decide, fun _ => ⟨by decide, by decide⟩⟩
            | ok b5 =>
              rw [runStepD_ok _ _ _ _ _ hc5]
              simp only [andThen_none]
              cases hc6 : run_command "npm run build" env.npm_build.1 env.npm_build.2 [] with
              | error e =>
                rw [runStepD_err _ _ _ _ _ hc6]
                simp only [andThen_some]
                dsimp only [Option.isNone]
                exact ⟨by decide, fun _ => ⟨by decide, by decide⟩⟩
              | ok b6 =>
                rw [runStepD_ok _ _ _ _ _ hc6]
                simp only [andThen_none]
                by_cases hg : dictGetD env.statusAtWake mysqlThreadName false
                · simp only [hg, if_true, andThen_none]
                  cases hc7 : run_command "php artisan migrate" env.migrate.1
                      env.migrate.2 [] with
                  | error e =>
                    rw [runStepD_err _ _ _ _ _ hc7]
                    simp only [andThen_some]
                    dsimp only [Option.isNone]
                    refine ⟨by decide, fun hne => ?_⟩
                    rw [hguard hne] at hg
                    exact absurd hg (by simp)
                  | ok b7 =>
                    rw [runStepD_ok _ _ _ _ _ hc7]
                    simp only [andThen_none]
                    cases hc8 : run_command "php artisan optimize:clear" env.optimize_clear.1
                        env.optimize_clear.2 [] with
                    | error e =>
                      rw [runStepD_err _ _ _ _ _ hc8]
                      dsimp only [Option.isNone]
                      refine ⟨by decide, fun hne => ?_⟩
                      rw [hguard hne] at hg
                      exact absurd hg (by simp)
                    | ok b8 =>
                      rw [runStepD_ok _ _ _ _ _ hc8]
                      dsimp only [Option.isNone]
                      refine ⟨by decide, fun hne => ?_⟩
                      rw [hguard hne] at hg
                      exact absurd hg (by simp)
                · simp only [Bool.not_eq_true] at hg
                  simp only [hg, Bool.false_eq_true, if_false, andThen_some]
                  dsimp only [Option.isNone]
                  exact ⟨by decide, fun _ => ⟨by decide, by decide⟩⟩
      · simp only [Bool.not_eq_true] at hio
        simp only [hio, Bool.false_eq_true, if_false, andThen_some]
        dsimp only [Option.isNone]
        exact ⟨by decide, fun _ => ⟨by decide, by decide⟩⟩

/-- Witness for C6 at a concrete run with an absent upstream status. -/
theorem deploy_migration_guarded_witness :
    (dictGet absentStatusDeployEnv.statusAtWake mysqlThreadName ≠ some true) ∧
    (DEv.cmd "php artisan migrate" ∉
      (deploy_codebase_thread_target absentStatusDeployEnv).1.takeWhile
        (fun ev => ev != DEv.gateWait) ∧
    (dictGet absentStatusDeployEnv.statusAtWake mysqlThreadName ≠ some true →
      DEv.cmd "php artisan migrate" ∉ (deploy_codebase_thread_target absentStatusDeployEnv).1 ∧
      DEv.cmd "php artisan optimize:clear" ∉
        (deploy_codebase_thread_target absentStatusDeployEnv).1)) :=
  ⟨by decide, deploy_migration_guarded absentStatusDeployEnv⟩

/-- Claim C9 is refuted by the code: when `php artisan config:clear` fails
    fatally, `run_command` raises (despite the message "continuing anyway"), the
    outer handler aborts the finalization with result `False`, and none of the
    later steps — migration included — is executed. -/
theorem finalize_config_clear_aborts :
    finalize_laravel_installation configClearFailEnv =
      Except.ok (false,
        [DEv.cmd "php --version", DEv.cmd "php artisan config:clear"],
        some "Command failed: php artisan config:clear") ∧
    DEv.cmd "php artisan migrate --force" ∉
      [DEv.cmd "php --version", DEv.cmd "php artisan config:clear"] ∧
    DEv.cmd "php artisan migrate" ∉
      [DEv.cmd "php --version", DEv.cmd "php artisan config:clear"] :=
  ⟨rfl, by decide, by decide⟩

/-- Claim C10: if the forced migration fails, the unforced fallback is
    attempted; if that also fails, the error the repair logs wraps the original
    forced-mode error `e₁`, not the fallback error `e₂`. -/
theorem finalize_migration_fallback (env : FinalizeEnv) (e₁ e₂ : String)
    (ha : env.artisan_exists = true) (he : env.env_exists = true)
    (h1 : run_command "php --version" env.php_version.1 env.php_version.2 [] =
      Except.ok true)
    (h2 : run_command "php artisan config:clear" env.config_clear.1 env.config_clear.2 [] =
      Except.ok true)
    (hf : run_command "php artisan migrate --force" env.migrate_force.1 env.migrate_force.2 [] =
      Except.error e₁)
    (hp : run_command "php artisan migrate" env.migrate_plain.1 env.migrate_plain.2 [] =
      Except.error e₂) :
    ∃ tr, finalize_laravel_installation env =
      Except.ok (false, tr, some ("Database migrations failed: " ++ e₁)) ∧
      DEv.cmd "php artisan migrate" ∈ tr := by
  unfold finalize_laravel_installation finalizeBody migrateWithFallback
  rw [ha, he]
  rw [runStepD_ok _ _ _ _ _ h1]
  simp only [Bool.not_true, Bool.false_eq_true, if_false, andThen_none]
  rw [runStepD_ok _ _ _ _ _ h2]
  simp only [andThen_none]
  rw [runStepD_err _ _ _ _ _ hf]
  simp only []
  rw [runStepD_err _ _ _ _ _ hp]
  simp only [andThen_some]
  exact ⟨_, rfl, by simp⟩

/-- Witness for C10 at a concrete double-failure run. -/
theorem finalize_migration_fallback_witness :
    migrateFailEnv.artisan_exists = true ∧
    migrateFailEnv.env_exists = true ∧
    run_command "php --version" migrateFailEnv.php_version.1
      migrateFailEnv.php_version.2 [] = Except.ok true ∧
    run_command "php artisan config:clear" migrateFailEnv.config_clear.1
      migrateFailEnv.config_clear.2 [] = Except.ok true ∧
    run_command "php artisan migrate --force" migrateFailEnv.migrate_force.1
      migrateFailEnv.migrate_force.2 [] =
      Except.error "Command failed: php artisan migrate --force" ∧
    run_command "php artisan migrate" migrateFailEnv.migrate_plain.1
      migrateFailEnv.migrate_plain.2 [] =
      Except.error "Command failed: php artisan migrate" ∧
    (∃ tr, finalize_laravel_installation migrateFailEnv =
      Except.ok (false, tr,
        some ("Database migrations failed: " ++ "Command failed: php artisan migrate --force")) ∧
      DEv.cmd "php artisan migrate" ∈ tr) :=
  ⟨rfl, rfl, rfl, rfl, rfl, rfl,
    finalize_migration_fallback migrateFailEnv _ _ rfl rfl rfl rfl rfl rfl⟩

theorem rstrip_append (a b : List Char) :
    rstrip (a ++ b) = if rstrip b = [] then rstrip a else a ++ rstrip b := by
  unfold rstrip
  rw [List.reverse_append, List.dropWhile_append]
  by_cases h : b.reverse.dropWhile isSpacePy = []
  · simp [h]
  · have h1 : (b.reverse.dropWhile isSpacePy).isEmpty = false := by
      simpa [List.isEmpty_iff] using h
    have h2 : ¬((b.reverse.dropWhile isSpacePy).reverse = []) := by
      simpa using h
    rw [h1, if_neg h2]
    simp

theorem rstrip_newline (l : List Char) : rstrip (l ++ ['\n']) = rstrip l := by
  rw [rstrip_append]
  simp [show rstrip ['\n'] = [] from rfl]

theorem pyStrip_newline (l : List Char) : pyStrip (l ++ ['\n']) = pyStrip l := by
  unfold pyStrip lstrip
  rw [List.dropWhile_append]
  by_cases h : l.dropWhile isSpacePy = []
  · simp [h, show List.dropWhile isSpacePy ['\n'] = [] from rfl]
  · have h1 : (l.dropWhile isSpacePy).isEmpty = false := by simpa [List.isEmpty_iff] using h
    rw [h1]
    simp only [Bool.false_eq_true, if_false]
    exact rstrip_newline _

theorem pyStrip_keyed {k : Line} (w : List Char) (hk : goodKey k) :
    pyStrip (k ++ '=' :: w) = k ++ '=' :: rstrip w := by
  obtain ⟨hne, hc⟩ := hk
  obtain ⟨c, k', rfl⟩ : ∃ c k', k = c :: k' := by
    cases k with
    | nil => exact absurd rfl hne
    | cons c k' => exact ⟨c, k', rfl⟩
  have hcs : isSpacePy c = false := (hc c (by simp)).1
  unfold pyStrip lstrip
  rw [show (c :: k') ++ '=' :: w = c :: (k' ++ '=' :: w) from by simp]
  rw [List.dropWhile_cons_of_neg (by simp [hcs])]
  rw [show c :: (k' ++ '=' :: w) = ((c :: k') ++ ['=']) ++ w from by simp]
  rw [rstrip_append]
  by_cases hw : rstrip w = []
  · rw [if_pos hw, rstrip_append, if_neg (by decide : ¬(rstrip ['='] = [])), hw]
    simp [show rstrip ['='] = ['='] from rfl]
  · rw [if_neg hw]
    simp

theorem key_prefix_unique (k₁ : List Char) : ∀ (z k₂ : List Char), '=' ∉ k₁ → '=' ∉ k₂ →
    (k₁ ++ ['=']) <+: z → (k₂ ++ ['=']) <+: z → k₁ = k₂ := by
  induction k₁ with
  | nil =>
    intro z k₂ _ h₂ hp₁ hp₂
    cases k₂ with
    | nil => rfl
    | cons c k₂' =>
      exfalso
      cases z with
      | nil => simp at hp₁
      | cons d z' =>
        simp only [List.nil_append] at hp₁
        simp only [List.cons_append] at hp₂
        have h1 := (List.cons_prefix_cons.mp hp₁).1
        have h2 := (List.cons_prefix_cons.mp hp₂).1
        exact h₂ (by rw [h2.trans h1.symm]; exact List.mem_cons_self _ _)
  | cons a k₁' ih =>
    intro z k₂ h₁ h₂ hp₁ hp₂
    cases z with
    | nil => simp at hp₁
    | cons d z' =>
      simp only [List.cons_append] at hp₁
      obtain ⟨had, hp₁'⟩ := List.cons_prefix_cons.mp hp₁
      cases k₂ with
      | nil =>
        exfalso
        simp only [List.nil_append] at hp₂
        have h2 := (List.cons_prefix_cons.mp hp₂).1
        exact h₁ (by rw [had.trans h2.symm]; exact List.mem_cons_self _ _)
      | cons b k₂' =>
        simp only [List.cons_append] at hp₂
        obtain ⟨hbd, hp₂'⟩ := List.cons_prefix_cons.mp hp₂
        have hk : k₁' = k₂' := ih z' k₂' (fun hm => h₁ (List.mem_cons_of_mem _ hm))
          (fun hm => h₂ (List.mem_cons_of_mem _ hm)) hp₁' hp₂'
        rw [hk, hbd.trans had.symm]

theorem namesB_newline (l k : Line) : namesB (l ++ ['\n']) k = namesB l k := by
  unfold namesB
  rw [pyStrip_newline]

theorem mkLine_eq_keyed (k v : Line) : mkLine k v = k ++ '=' :: (v ++ ['\n']) := by
  unfold mkLine
  simp

theorem namesB_mkLine_self (k v : Line) (hk : goodKey k) : namesB (mkLine k v) k = true := by
  unfold namesB pyStartsWith
  rw [mkLine_eq_keyed, pyStrip_keyed (v ++ ['\n']) hk]
  exact List.isPrefixOf_iff_prefix.mpr ⟨rstrip (v ++ ['\n']), by simp⟩

theorem goodKey_no_eq {k : Line} (hk : goodKey k) : '=' ∉ k := by
  intro hm
  exact (hk.2 '=' hm).2 rfl

theorem namesB_unique {l k₁ k₂ : Line} (h₁ : goodKey k₁) (h₂ : goodKey k₂)
    (hn₁ : namesB l k₁ = true) (hn₂ : namesB l k₂ = true) : k₁ = k₂ := by
  unfold namesB pyStartsWith at hn₁ hn₂
  exact key_prefix_unique k₁ (pyStrip l) k₂ (goodKey_no_eq h₁) (goodKey_no_eq h₂)
    (List.isPrefixOf_iff_prefix.mp hn₁) (List.isPrefixOf_iff_prefix.mp hn₂)

theorem namesB_mkLine_iff {k' : Line} (k v : Line) (hk : goodKey k) (hk' : goodKey k') :
    namesB (mkLine k v) k' = true ↔ k' = k := by
  constructor
  · intro h
    exact namesB_unique hk' hk h (namesB_mkLine_self k v hk)
  · intro h
    rw [h]
    exact namesB_mkLine_self k v hk

theorem findMatch_some_facts {S : List (Line × Line)} {l : Line} {k v : Line}
    (h : findMatch S l = some (k, v)) : (k, v) ∈ S ∧ namesB l k = true := by
  unfold findMatch at h
  have h2 := List.find?_some h
  exact ⟨List.mem_of_find?_eq_some h, h2⟩

theorem findMatch_isSome_of {S : List (Line × Line)} {l k v : Line}
    (hmem : (k, v) ∈ S) (hn : namesB l k = true) : ∃ p, findMatch S l = some p := by
  have h : (findMatch S l).isSome = true := by
    unfold findMatch
    rw [List.find?_isSome]
    exact ⟨(k, v), hmem, hn⟩
  exact Option.isSome_iff_exists.mp h

theorem findMatch_key_of_names {S : List (Line × Line)} (hS : GoodKeys S) {l k v k₂ : Line}
    (h : findMatch S l = some (k, v)) (hmem2 : k₂ ∈ keysOf S) (hn2 : namesB l k₂ = true) :
    k₂ = k := by
  obtain ⟨hmem, hn⟩ := findMatch_some_facts h
  obtain ⟨kv₂, hkv₂, hfst⟩ := List.mem_map.mp hmem2
  exact namesB_unique (hfst ▸ hS kv₂ hkv₂) (hS (k, v) hmem) hn2 hn

theorem findMatch_none_names {S : List (Line × Line)} {l k : Line}
    (h : findMatch S l = none) (hk : k ∈ keysOf S) : namesB l k = false := by
  cases hb : namesB l k with
  | false => rfl
  | true =>
    exfalso
    obtain ⟨kv, hkv, hfst⟩ := List.mem_map.mp hk
    have hmem : (kv.1, kv.2) ∈ S := by rw [Prod.mk.eta]; exact hkv
    have hn : namesB l kv.1 = true := by rw [hfst]; exact hb
    obtain ⟨p, hp⟩ := findMatch_isSome_of hmem hn
    rw [h] at hp
    cases hp

theorem goodKey_APP_KEY : goodKey APP_KEY := by
  constructor
  · decide
  · decide

theorem processLine_eq {S : List (Line × Line)} (hS : GoodKeys S) (l : Line) (u : List Line) :
    processLine S l u = ([lineOut S l], updOut S l u) := by
  unfold processLine lineOut updOut
  cases hm : findMatch S l with
  | none =>
    dsimp only
    by_cases hck : (namesB l APP_KEY && !(u.contains APP_KEY)) = true
    · rw [if_pos hck, if_pos hck]
    · rw [if_neg hck, if_neg hck]
  | some p =>
    obtain ⟨k, v⟩ := p
    dsimp only
    have hfalse : (namesB l APP_KEY && !((k :: u).contains APP_KEY)) = false := by
      cases hb : namesB l APP_KEY with
      | false => rfl
      | true =>
        have heq : APP_KEY = k :=
          namesB_unique goodKey_APP_KEY (hS (k, v) (findMatch_some_facts hm).1) hb
            (findMatch_some_facts hm).2
        have hcont : (k :: u).contains APP_KEY = true := by
          rw [heq]
          simp [List.contains_cons]
        rw [hcont]
        rfl
    simp only [hfalse, Bool.false_eq_true, if_false]

theorem mergeBody_fst {S : List (Line × Line)} (hS : GoodKeys S) :
    ∀ (F : List Line) (u : List Line), (mergeBody S F u).1 = F.map (lineOut S) := by
  intro F
  induction F with
  | nil => intro u; rfl
  | cons l ls ih =>
    intro u
    unfold mergeBody
    rw [processLine_eq hS]
    simp [ih]

theorem updOut_contains {S : List (Line × Line)} (hS : GoodKeys S) (l : Line)
    (u : List Line) {k : Line} (hk : k ∈ keysOf S) :
    (updOut S l u).contains k = (u.contains k || namesB l k) := by
  obtain ⟨kv, hkvS, hfst⟩ := List.mem_map.mp hk
  have hkgood : goodKey k := hfst ▸ hS kv hkvS
  unfold updOut
  cases hm : findMatch S l with
  | some p =>
    obtain ⟨k₀, v₀⟩ := p
    have hk₀good : goodKey k₀ := hS _ (findMatch_some_facts hm).1
    by_cases he : k = k₀
    · subst he
      rw [(findMatch_some_facts hm).2]
      simp [List.contains_cons]
    · have hnb : namesB l k = false := by
        cases hb : namesB l k with
        | false => rfl
        | true => exact absurd (namesB_unique hkgood hk₀good hb (findMatch_some_facts hm).2) he
      rw [hnb, List.contains_cons, beq_eq_false_iff_ne.mpr he, Bool.false_or, Bool.or_false]
  | none =>
    have hnb : namesB l k = false := findMatch_none_names hm hk
    rw [hnb]
    by_cases hck : (namesB l APP_KEY && !(u.contains APP_KEY)) = true
    · rw [if_pos hck]
      by_cases hka : k = APP_KEY
      · exfalso
        have hbz : namesB l APP_KEY = true := (Bool.and_eq_true _ _ ▸ hck).1
        rw [← hka, hnb] at hbz
        cases hbz
      · rw [List.contains_cons, beq_eq_false_iff_ne.mpr hka, Bool.false_or, Bool.or_false]
    · rw [if_neg hck, Bool.or_false]

theorem endsWithNewline_mkLine (k v : Line) : endsWithNewline (mkLine k v) = true := by
  unfold endsWithNewline mkLine
  rw [List.getLast?_append]
  simp

theorem needsFiller_append_mkLine (out : List Line) (k v : Line) :
    needsFiller (out ++ [mkLine k v]) = false := by
  unfold needsFiller
  rw [List.getLast?_append]
  simp [endsWithNewline_mkLine]

theorem appendMissing_of_all : ∀ (S : List (Line × Line)) (out : List Line) (u : List Line),
    (∀ kv ∈ S, u.contains kv.1 = true) → appendMissing S out u = out := by
  intro S
  induction S with
  | nil => intro out u _; rfl
  | cons p rest ih =>
    intro out u h
    obtain ⟨k, v⟩ := p
    unfold appendMissing
    rw [if_pos (h (k, v) (List.mem_cons_self _ _))]
    exact ih out u (fun kv hkv => h kv (List.mem_cons_of_mem _ hkv))

theorem appendMissing_noFiller : ∀ (S : List (Line × Line)) (out : List Line) (u : List Line),
    needsFiller out = false →
    appendMissing S out u =
      out ++ (S.filter (fun kv => !(u.contains kv.1))).map (fun kv => mkLine kv.1 kv.2) := by
  intro S
  induction S with
  | nil => intro out u _; simp [appendMissing]
  | cons p rest ih =>
    intro out u h
    obtain ⟨k, v⟩ := p
    unfold appendMissing
    by_cases hc : u.contains k = true
    · rw [if_pos hc, ih out u h,
        List.filter_cons_of_neg (by intro hcontra; rw [hc] at hcontra; exact absurd hcontra (by decide))]
    · have hc' : u.contains k = false := by
        cases hcc : u.contains k
        · rfl
        · exact absurd hcc hc
      rw [if_neg hc]
      rw [if_neg (by intro hcontra; rw [h] at hcontra; exact Bool.false_ne_true hcontra)]
      rw [ih (out ++ [mkLine k v]) u (needsFiller_append_mkLine out k v),
        List.filter_cons_of_pos (by rw [hc']; rfl), List.map_cons, List.append_assoc]
      rfl

theorem appendMissing_filler : ∀ (S : List (Line × Line)) (out : List Line) (u : List Line),
    needsFiller out = true → (∃ kv ∈ S, u.contains kv.1 = false) →
    appendMissing S out u =
      (out ++ [['\n']]) ++
        (S.filter (fun kv => !(u.contains kv.1))).map (fun kv => mkLine kv.1 kv.2) := by
  intro S
  induction S with
  | nil =>
    intro out u _ hex
    obtain ⟨kv, hm, _⟩ := hex
    simp at hm
  | cons p rest ih =>
    intro out u hf hex
    obtain ⟨k, v⟩ := p
    unfold appendMissing
    by_cases hc : u.contains k = true
    · rw [if_pos hc]
      have hex' : ∃ kv ∈ rest, u.contains kv.1 = false := by
        obtain ⟨⟨k₂, v₂⟩, hm, hfalse⟩ := hex
        rcases List.mem_cons.mp hm with heq | hm'
        · exfalso
          have hk₂ : k₂ = k := (Prod.mk.injEq k₂ v₂ k v ▸ heq).1
          rw [hk₂, hc] at hfalse
          cases hfalse
        · exact ⟨(k₂, v₂), hm', hfalse⟩
      rw [ih out u hf hex',
        List.filter_cons_of_neg (by intro hcontra; rw [hc] at hcontra; exact absurd hcontra (by decide))]
    · have hc' : u.contains k = false := by
        cases hcc : u.contains k
        · rfl
        · exact absurd hcc hc
      rw [if_neg hc, if_pos hf]
      rw [appendMissing_noFiller rest ((out ++ [['\n']]) ++ [mkLine k v]) u
        (needsFiller_append_mkLine _ k v),
        List.filter_cons_of_pos (by rw [hc']; rfl), List.map_cons, List.append_assoc]
      rfl

theorem mergeBody_contains {S : List (Line × Line)} (hS : GoodKeys S) :
    ∀ (F : List Line) (u : List Line) (k : Line), k ∈ keysOf S →
    ((mergeBody S F u).2.contains k = (u.contains k || F.any (fun l => namesB l k))) := by
  intro F
  induction F with
  | nil => intro u k _; simp [mergeBody]
  | cons l ls ih =>
    intro u k hk
    unfold mergeBody
    rw [processLine_eq hS]
    dsimp only
    rw [ih _ k hk, updOut_contains hS l u hk]
    simp [List.any_cons, Bool.or_assoc]

/-- Characterization of the whole merge: every input line is rewritten by
    `lineOut`, a lone newline filler is inserted exactly when something must be
    appended after a non-newline-terminated last line, and the managed pairs no
    line names are appended in order. -/
theorem mergeEnvLines_eq {S : List (Line × Line)} (hS : GoodKeys S) (F : List Line) :
    mergeEnvLines S F =
      (if needsFiller (F.map (lineOut S)) = true ∧ missingF S F ≠ []
       then F.map (lineOut S) ++ [['\n']] else F.map (lineOut S)) ++
      (missingF S F).map (fun kv => mkLine kv.1 kv.2) := by
  unfold mergeEnvLines
  have h1 : (mergeBody S F []).1 = F.map (lineOut S) := mergeBody_fst hS F []
  have h2 : S.filter (fun kv => !((mergeBody S F []).2.contains kv.1)) = missingF S F := by
    unfold missingF
    apply List.filter_congr
    intro kv hkv
    rw [mergeBody_contains hS F [] kv.1 (List.mem_map_of_mem _ hkv)]
    simp [List.contains]
  by_cases hm : missingF S F = []
  · have hall : ∀ kv ∈ S, (mergeBody S F []).2.contains kv.1 = true := by
      intro kv hkv
      cases hcc : (mergeBody S F []).2.contains kv.1 with
      | false =>
        exfalso
        have hmem : kv ∈ S.filter (fun kv => !((mergeBody S F []).2.contains kv.1)) := by
          rw [List.mem_filter]
          exact ⟨hkv, by rw [hcc]; rfl⟩
        rw [h2, hm] at hmem
        simp at hmem
      | true => rfl
    rw [appendMissing_of_all _ _ _ hall, h1, hm]
    simp
  · by_cases hfil : needsFiller (F.map (lineOut S)) = true
    · have hex : ∃ kv ∈ S, (mergeBody S F []).2.contains kv.1 = false := by
        obtain ⟨kv, hkv⟩ := List.exists_mem_of_ne_nil _ hm
        rw [← h2] at hkv
        have hsplit := List.mem_filter.mp hkv
        refine ⟨kv, hsplit.1, ?_⟩
        cases hcc : (mergeBody S F []).2.contains kv.1 with
        | false => rfl
        | true =>
          have hb := hsplit.2
          rw [hcc] at hb
          cases hb
      rw [appendMissing_filler _ _ _ (by rw [h1]; exact hfil) hex, h1, h2]
      rw [if_pos ⟨hfil, hm⟩]
    · have hfil' : needsFiller (F.map (lineOut S)) = false := by
        cases hcc : needsFiller (F.map (lineOut S)) with
        | false => rfl
        | true => exact absurd hcc hfil
      rw [appendMissing_noFiller _ _ _ (by rw [h1]; exact hfil'), h1, h2]
      rw [if_neg (by intro hand; exact hfil hand.1)]

theorem splitLinesAux_flatten : ∀ (s : List Char) (acc : List Char),
    (splitLinesAux acc s).flatten = acc.reverse ++ s := by
  intro s
  induction s with
  | nil =>
    intro acc
    unfold splitLinesAux
    by_cases h : acc.isEmpty = true
    · rw [if_pos h]
      have hn : acc = [] := by
        cases acc with
        | nil => rfl
        | cons a t => simp at h
      rw [hn]
      rfl
    · rw [if_neg h]
      simp
  | cons c cs ih =>
    intro acc
    unfold splitLinesAux
    by_cases h : c = '\n'
    · rw [if_pos h]
      rw [List.flatten_cons, ih []]
      simp [h]
    · rw [if_neg h]
      rw [ih (c :: acc)]
      simp

theorem splitLines_flatten (s : List Char) : (splitLines s).flatten = s := by
  unfold splitLines
  rw [splitLinesAux_flatten]
  rfl

theorem splitLinesAux_proper : ∀ (m : List Char), '\n' ∉ m → ∀ (rest acc : List Char),
    splitLinesAux acc (m ++ '\n' :: rest) =
      (acc.reverse ++ (m ++ ['\n'])) :: splitLinesAux [] rest := by
  intro m
  induction m with
  | nil =>
    intro _ rest acc
    simp only [List.nil_append]
    conv_lhs => unfold splitLinesAux
    rw [if_pos rfl]
  | cons a m' ih =>
    intro h rest acc
    simp only [List.cons_append]
    conv_lhs => unfold splitLinesAux
    rw [if_neg (by intro hc; exact h (by rw [hc]; exact List.mem_cons_self _ _))]
    rw [ih (fun hm => h (List.mem_cons_of_mem a hm)) rest (a :: acc)]
    simp

theorem splitLines_proper_cons {m : List Char} (h : '\n' ∉ m) (rest : List Char) :
    splitLines ((m ++ ['\n']) ++ rest) = (m ++ ['\n']) :: splitLines rest := by
  unfold splitLines
  rw [show (m ++ ['\n']) ++ rest = m ++ '\n' :: rest from by simp]
  rw [splitLinesAux_proper m h rest []]
  simp

theorem splitLinesAux_tailFrag : ∀ (t : List Char) (acc : List Char), '\n' ∉ t →
    acc.reverse ++ t ≠ [] → splitLinesAux acc t = [acc.reverse ++ t] := by
  intro t
  induction t with
  | nil =>
    intro acc _ hne
    unfold splitLinesAux
    have hacc : ¬(acc.isEmpty = true) := by
      intro hempty
      have hn : acc = [] := by
        cases acc with
        | nil => rfl
        | cons a t => simp at hempty
      rw [hn] at hne
      exact hne rfl
    rw [if_neg hacc]
    simp
  | cons c cs ih =>
    intro acc h hne
    unfold splitLinesAux
    rw [if_neg (by intro hc; exact h (by rw [hc]; exact List.mem_cons_self _ _))]
    rw [ih (c :: acc) (fun hm => h (List.mem_cons_of_mem c hm)) (by simp)]
    simp

theorem splitLines_tailFrag {t : List Char} (h : '\n' ∉ t) (hne : t ≠ []) :
    splitLines t = [t] := by
  unfold splitLines
  rw [splitLinesAux_tailFrag t [] h (by simpa using hne)]
  rfl

theorem splitLines_flatten_proper : ∀ (ls : List (List Char)),
    (∀ l ∈ ls, ProperLine l) → splitLines ls.flatten = ls := by
  intro ls
  induction ls with
  | nil => intro _; rfl
  | cons l ls ih =>
    intro h
    obtain ⟨m, hl, hm⟩ := h l (List.mem_cons_self _ _)
    subst hl
    rw [List.flatten_cons, splitLines_proper_cons hm,
      ih (fun x hx => h x (List.mem_cons_of_mem _ hx))]

theorem splitLines_flatten_tail : ∀ (ls : List (List Char)) (t : List Char),
    (∀ l ∈ ls, ProperLine l) → TailLine t → splitLines (ls.flatten ++ t) = ls ++ [t] := by
  intro ls
  induction ls with
  | nil =>
    intro t _ ht
    simp only [List.flatten_nil, List.nil_append]
    rw [splitLines_tailFrag ht.2 ht.1]
  | cons l ls ih =>
    intro t h ht
    obtain ⟨m, hl, hm⟩ := h l (List.mem_cons_self _ _)
    subst hl
    rw [List.flatten_cons, List.append_assoc, splitLines_proper_cons hm,
      ih t (fun x hx => h x (List.mem_cons_of_mem _ hx)) ht]
    rfl

theorem splitLinesAux_shape : ∀ (s : List Char) (acc : List Char), '\n' ∉ acc →
    ∀ l ∈ splitLinesAux acc s, ProperLine l ∨ TailLine l := by
  intro s
  induction s with
  | nil =>
    intro acc hacc l hl
    unfold splitLinesAux at hl
    by_cases h : acc.isEmpty = true
    · rw [if_pos h] at hl
      simp at hl
    · rw [if_neg h] at hl
      simp only [List.mem_singleton] at hl
      subst hl
      right
      refine ⟨?_, ?_⟩
      · simpa [List.isEmpty_iff] using h
      · simpa using hacc
  | cons c cs ih =>
    intro acc hacc l hl
    unfold splitLinesAux at hl
    by_cases h : c = '\n'
    · rw [if_pos h] at hl
      rcases List.mem_cons.mp hl with rfl | hl'
      · exact Or.inl ⟨acc.reverse, rfl, by simpa using hacc⟩
      · exact ih [] (by simp) l hl'
    · rw [if_neg h] at hl
      refine ih (c :: acc) ?_ l hl
      intro hmem
      rcases List.mem_cons.mp hmem with hc | hmem'
      · exact h hc.symm
      · exact hacc hmem'

theorem splitLines_shape (s : List Char) : ∀ l ∈ splitLines s, ProperLine l ∨ TailLine l :=
  splitLinesAux_shape s [] (by simp)

theorem splitLinesAux_dropLast : ∀ (s : List Char) (acc : List Char), '\n' ∉ acc →
    ∀ l ∈ (splitLinesAux acc s).dropLast, ProperLine l := by
  intro s
  induction s with
  | nil =>
    intro acc _ l hl
    unfold splitLinesAux at hl
    by_cases h : acc.isEmpty = true
    · rw [if_pos h] at hl
      simp at hl
    · rw [if_neg h] at hl
      simp at hl
  | cons c cs ih =>
    intro acc hacc l hl
    unfold splitLinesAux at hl
    by_cases h : c = '\n'
    · rw [if_pos h] at hl
      cases hrest : splitLinesAux [] cs with
      | nil =>
        rw [hrest] at hl
        simp at hl
      | cons r rs =>
        rw [hrest, List.dropLast_cons_of_ne_nil (by simp)] at hl
        rcases List.mem_cons.mp hl with rfl | hl'
        · exact ⟨acc.reverse, rfl, by simpa using hacc⟩
        · refine ih [] (by simp) l ?_
          rw [hrest]
          exact hl'
    · rw [if_neg h] at hl
      refine ih (c :: acc) ?_ l hl
      intro hmem
      rcases List.mem_cons.mp hmem with hc | hmem'
      · exact h hc.symm
      · exact hacc hmem'

theorem splitLines_dropLast (s : List Char) :
    ∀ l ∈ (splitLines s).dropLast, ProperLine l :=
  splitLinesAux_dropLast s [] (by simp)

theorem goodKey_no_newline {k : Line} (hk : goodKey k) : '\n' ∉ k := by
  intro hm
  have h1 := (hk.2 '\n' hm).1
  exact absurd h1 (by decide)

theorem mkLine_proper {k v : Line} (hk : goodKey k) (hv : '\n' ∉ v) :
    ProperLine (mkLine k v) := by
  refine ⟨k ++ '=' :: v, rfl, ?_⟩
  intro hmem
  rcases List.mem_append.mp hmem with hka | hvv
  · exact goodKey_no_newline hk hka
  · rcases List.mem_cons.mp hvv with he | hv2
    · exact absurd he (by decide)
    · exact hv hv2

theorem lineOut_proper {S : List (Line × Line)} (hS : GoodKeys S)
    (hv : ∀ kv ∈ S, '\n' ∉ kv.2) {l : Line} (hl : ProperLine l) :
    ProperLine (lineOut S l) := by
  unfold lineOut
  cases hm : findMatch S l with
  | none => exact hl
  | some p =>
    obtain ⟨k, v⟩ := p
    have hmem := (findMatch_some_facts hm).1
    exact mkLine_proper (hS _ hmem) (hv _ hmem)

theorem findMatch_mkLine : ∀ {S : List (Line × Line)}, GoodKeys S → (keysOf S).Nodup →
    ∀ {k v : Line}, (k, v) ∈ S → findMatch S (mkLine k v) = some (k, v) := by
  intro S
  induction S with
  | nil =>
    intro _ _ k v hmem
    simp at hmem
  | cons p rest ih =>
    intro hS hnd k v hmem
    obtain ⟨k₁, v₁⟩ := p
    have hnd2 : (k₁ :: keysOf rest).Nodup := hnd
    rcases List.mem_cons.mp hmem with heq | hmem'
    · cases heq
      unfold findMatch
      rw [@List.find?_cons_of_pos _ (fun kv => namesB (mkLine k v) kv.1) (k, v) rest
        (namesB_mkLine_self k v (hS (k, v) (List.mem_cons_self _ _)))]
    · have hk₁ : ¬(k₁ = k) := by
        intro he
        exact (List.nodup_cons.mp hnd2).1 (he ▸ List.mem_map_of_mem Prod.fst hmem')
      unfold findMatch
      rw [@List.find?_cons_of_neg _ (fun kv => namesB (mkLine k v) kv.1) (k₁, v₁) rest]
      · exact ih (fun kv hkv => hS kv (List.mem_cons_of_mem _ hkv))
          ((List.nodup_cons.mp hnd2).2) hmem'
      · intro hcontra
        exact hk₁ ((namesB_mkLine_iff k v (hS (k, v) (List.mem_cons_of_mem _ hmem'))
          (hS (k₁, v₁) (List.mem_cons_self _ _))).mp hcontra)

theorem findMatch_stable : ∀ {S : List (Line × Line)}, GoodKeys S →
    ∀ {l k v : Line}, findMatch S l = some (k, v) →
    findMatch S (mkLine k v) = some (k, v) := by
  intro S
  induction S with
  | nil =>
    intro _ l k v h
    simp [findMatch] at h
  | cons p rest ih =>
    intro hS l k v h
    obtain ⟨k₁, v₁⟩ := p
    unfold findMatch at h
    cases hp : namesB l k₁ with
    | true =>
      rw [@List.find?_cons_of_pos _ (fun kv => namesB l kv.1) (k₁, v₁) rest hp] at h
      have h2 : ((k₁, v₁) : Line × Line) = (k, v) := Option.some_inj.mp h
      cases h2
      unfold findMatch
      rw [@List.find?_cons_of_pos _ (fun kv => namesB (mkLine k v) kv.1) (k, v) rest
        (namesB_mkLine_self k v (hS (k, v) (List.mem_cons_self _ _)))]
    | false =>
      rw [@List.find?_cons_of_neg _ (fun kv => namesB l kv.1) (k₁, v₁) rest
        (show ¬namesB l k₁ = true by
          intro hcontra; rw [hp] at hcontra; exact Bool.false_ne_true hcontra)] at h
      have hrest : findMatch rest l = some (k, v) := h
      have htail : findMatch rest (mkLine k v) = some (k, v) :=
        ih (fun kv hkv => hS kv (List.mem_cons_of_mem _ hkv)) hrest
      have hkgood : goodKey k :=
        hS (k, v) (List.mem_cons_of_mem _ (findMatch_some_facts hrest).1)
      have h₁good : goodKey k₁ := hS (k₁, v₁) (List.mem_cons_self _ _)
      unfold findMatch
      rw [@List.find?_cons_of_neg _ (fun kv => namesB (mkLine k v) kv.1) (k₁, v₁) rest]
      · exact htail
      · intro hcontra
        have hc2 : namesB (mkLine k v) k₁ = true := hcontra
        have hke : k₁ = k := (namesB_mkLine_iff k v hkgood h₁good).mp hc2
        have hnl : namesB l k = true := (findMatch_some_facts hrest).2
        rw [hke, hnl] at hp
        cases hp

theorem lineOut_stable {S : List (Line × Line)} (hS : GoodKeys S) (l : Line) :
    lineOut S (lineOut S l) = lineOut S l := by
  unfold lineOut
  cases hm : findMatch S l with
  | none => rw [hm]
  | some p =>
    obtain ⟨k, v⟩ := p
    rw [findMatch_stable hS hm]

theorem findMatch_newline (S : List (Line × Line)) (t : Line) :
    findMatch S (t ++ ['\n']) = findMatch S t := by
  unfold findMatch
  induction S with
  | nil => rfl
  | cons p rest ih =>
    cases hp : namesB t p.1 with
    | true =>
      rw [@List.find?_cons_of_pos _ (fun kv => namesB t kv.1) p rest hp,
        @List.find?_cons_of_pos _ (fun kv => namesB (t ++ ['\n']) kv.1) p rest
          (show namesB (t ++ ['\n']) p.1 = true by rw [namesB_newline]; exact hp)]
    | false =>
      rw [@List.find?_cons_of_neg _ (fun kv => namesB t kv.1) p rest
          (show ¬namesB t p.1 = true by
            intro hc; rw [hp] at hc; exact Bool.false_ne_true hc),
        @List.find?_cons_of_neg _ (fun kv => namesB (t ++ ['\n']) kv.1) p rest
          (show ¬namesB (t ++ ['\n']) p.1 = true by
            intro hc; rw [namesB_newline, hp] at hc; exact Bool.false_ne_true hc)]
      exact ih

theorem map_self_of_mem {α : Type} (f : α → α) :
    ∀ (l : List α), (∀ x ∈ l, f x = x) → l.map f = l := by
  intro l
  induction l with
  | nil => intro _; rfl
  | cons a t ih =>
    intro h
    rw [List.map_cons, h a (List.mem_cons_self _ _),
      ih (fun x hx => h x (List.mem_cons_of_mem _ hx))]

theorem properLine_endsWithNewline {l : Line} (h : ProperLine l) :
    endsWithNewline l = true := by
  obtain ⟨m, rfl, _⟩ := h
  unfold endsWithNewline
  rw [List.getLast?_append]
  simp

theorem tailLine_endsWithNewline {l : Line} (h : TailLine l) :
    endsWithNewline l = false := by
  obtain ⟨hne, hnl⟩ := h
  unfold endsWithNewline
  cases hg : l.getLast? with
  | none => rfl
  | some c =>
    have hc : c ∈ l := List.mem_of_mem_getLast? hg
    have hcn : ¬(c = '\n') := fun he => hnl (he ▸ hc)
    simp [hcn]

theorem needsFiller_concat (xs : List Line) (t : Line) :
    needsFiller (xs ++ [t]) = !(endsWithNewline t) := by
  unfold needsFiller
  rw [List.getLast?_append]
  rfl

theorem needsFiller_of_properLast (xs : List Line) {t : Line} (h : ProperLine t) :
    needsFiller (xs ++ [t]) = false := by
  rw [needsFiller_concat, properLine_endsWithNewline h]
  rfl

theorem missingF_nil_of_covered (S : List (Line × Line)) (L2 : List Line)
    (h : ∀ kv ∈ S, ∃ l ∈ L2, namesB l kv.1 = true) : missingF S L2 = [] := by
  unfold missingF
  rw [List.filter_eq_nil_iff]
  intro kv hkv hcontra
  have hany : L2.any (fun l => namesB l kv.1) = true := List.any_eq_true.mpr (h kv hkv)
  rw [hany] at hcontra
  cases hcontra

/-- Core of idempotence: every line of the merge's output is fixed by another
    pass of the rewriting, and every managed key is named by some output line. -/
theorem merge_lines_stable (S : List (Line × Line)) (hgood : goodEnv S) :
    ∀ (L : List Line), (∀ l ∈ L.dropLast, ProperLine l) →
    (∀ l ∈ L, ProperLine l ∨ TailLine l) →
    (∀ l ∈ splitLines ((mergeEnvLines S L).flatten), lineOut S l = l) ∧
    (∀ kv ∈ S, ∃ l ∈ splitLines ((mergeEnvLines S L).flatten), namesB l kv.1 = true) := by
  obtain ⟨hkv, hnd⟩ := hgood
  have hS : GoodKeys S := fun kv h => (hkv kv h).1
  have hv : ∀ kv ∈ S, '\n' ∉ kv.2 := fun kv h => (hkv kv h).2
  intro L hdrop hshape
  have happ_mem : ∀ F : List Line, ∀ x ∈ (missingF S F).map (fun kv => mkLine kv.1 kv.2),
      ProperLine x ∧ lineOut S x = x := by
    intro F x hx
    obtain ⟨kv, hkv2, rfl⟩ := List.mem_map.mp hx
    unfold missingF at hkv2
    have hkvS : kv ∈ S := (List.mem_filter.mp hkv2).1
    refine ⟨mkLine_proper (hS _ hkvS) (hv _ hkvS), ?_⟩
    have hmempair : (kv.1, kv.2) ∈ S := by rw [Prod.mk.eta]; exact hkvS
    unfold lineOut
    rw [findMatch_mkLine hS hnd hmempair]
  rcases List.eq_nil_or_concat L with rfl | ⟨init, last, hLeq⟩
  · -- empty file: the merge appends every managed pair
    have hmerge : mergeEnvLines S [] =
        (missingF S []).map (fun kv => mkLine kv.1 kv.2) := by
      rw [mergeEnvLines_eq hS]
      rw [if_neg (fun hand => Bool.false_ne_true hand.1)]
      rfl
    rw [hmerge]
    rw [splitLines_flatten_proper _ (fun x hx => (happ_mem [] x hx).1)]
    constructor
    · intro l hl
      exact (happ_mem [] l hl).2
    · intro kv hkvS
      refine ⟨mkLine kv.1 kv.2, ?_, by
        have := namesB_mkLine_self kv.1 kv.2 (hS _ hkvS)
        exact this⟩
      apply List.mem_map_of_mem
      unfold missingF
      rw [List.mem_filter]
      exact ⟨hkvS, rfl⟩
  · rw [List.concat_eq_append] at hLeq
    subst hLeq
    have hinit_prop : ∀ l ∈ init, ProperLine l := by
      intro l hl
      apply hdrop
      rw [List.dropLast_concat]
      exact hl
    have hlast_shape := hshape last (by simp)
    have hbody : (init ++ [last]).map (lineOut S) =
        init.map (lineOut S) ++ [lineOut S last] := by
      simp
    have hinit_map_prop : ∀ x ∈ init.map (lineOut S), ProperLine x := by
      intro x hx
      obtain ⟨l0, hl0, rfl⟩ := List.mem_map.mp hx
      exact lineOut_proper hS hv (hinit_prop l0 hl0)
    have hcover_named : ∀ kv, kv ∈ S →
        ∀ l0 ∈ init, namesB l0 kv.1 = true →
        lineOut S l0 ∈ init.map (lineOut S) ∧ namesB (lineOut S l0) kv.1 = true := by
      intro kv hkvS l0 hl0 hn0
      obtain ⟨⟨k', v'⟩, hp⟩ :=
        findMatch_isSome_of (show (kv.1, kv.2) ∈ S by rw [Prod.mk.eta]; exact hkvS) hn0
      have hkeq : kv.1 = k' := findMatch_key_of_names hS hp (List.mem_map_of_mem _ hkvS) hn0
      refine ⟨List.mem_map_of_mem _ hl0, ?_⟩
      unfold lineOut
      rw [hp, hkeq]
      exact namesB_mkLine_self k' v' (hS _ (findMatch_some_facts hp).1)
    by_cases hPlast : ProperLine (lineOut S last)
    · -- every rewritten line is newline-terminated: no filler
      have hbody_prop : ∀ x ∈ (init ++ [last]).map (lineOut S), ProperLine x := by
        intro x hx
        rw [hbody] at hx
        rcases List.mem_append.mp hx with hx1 | hx2
        · exact hinit_map_prop x hx1
        · rw [List.mem_singleton] at hx2
          subst hx2
          exact hPlast
      have hnf : needsFiller ((init ++ [last]).map (lineOut S)) = false := by
        rw [hbody]
        exact needsFiller_of_properLast _ hPlast
      have hmerge : mergeEnvLines S (init ++ [last]) =
          (init ++ [last]).map (lineOut S) ++
            (missingF S (init ++ [last])).map (fun kv => mkLine kv.1 kv.2) := by
        rw [mergeEnvLines_eq hS]
        rw [if_neg (by intro hand; rw [hnf] at hand; exact Bool.false_ne_true hand.1)]
      rw [hmerge]
      have hall_prop : ∀ x ∈ (init ++ [last]).map (lineOut S) ++
          (missingF S (init ++ [last])).map (fun kv => mkLine kv.1 kv.2), ProperLine x := by
        intro x hx
        rcases List.mem_append.mp hx with h1 | h2
        · exact hbody_prop x h1
        · exact (happ_mem _ x h2).1
      rw [splitLines_flatten_proper _ hall_prop]
      constructor
      · intro l hl
        rcases List.mem_append.mp hl with h1 | h2
        · obtain ⟨l0, _, rfl⟩ := List.mem_map.mp h1
          exact lineOut_stable hS l0
        · exact (happ_mem _ l h2).2
      · intro kv hkvS
        by_cases hnamed : (init ++ [last]).any (fun l => namesB l kv.1) = true
        · obtain ⟨l0, hl0, hn0⟩ := List.any_eq_true.mp hnamed
          obtain ⟨⟨k', v'⟩, hp⟩ :=
            findMatch_isSome_of (show (kv.1, kv.2) ∈ S by rw [Prod.mk.eta]; exact hkvS) hn0
          have hkeq : kv.1 = k' :=
            findMatch_key_of_names hS hp (List.mem_map_of_mem _ hkvS) hn0
          refine ⟨lineOut S l0, List.mem_append.mpr (Or.inl (List.mem_map_of_mem _ hl0)), ?_⟩
          unfold lineOut
          rw [hp, hkeq]
          exact namesB_mkLine_self k' v' (hS _ (findMatch_some_facts hp).1)
        · refine ⟨mkLine kv.1 kv.2, ?_, namesB_mkLine_self _ _ (hS _ hkvS)⟩
          apply List.mem_append.mpr
          right
          apply List.mem_map_of_mem
          unfold missingF
          rw [List.mem_filter]
          refine ⟨hkvS, ?_⟩
          have hf : (init ++ [last]).any (fun l => namesB l kv.1) = false := by
            cases hany : (init ++ [last]).any (fun l => namesB l kv.1) with
            | false => rfl
            | true => exact absurd hany hnamed
          rw [hf]
          rfl
    · -- the last line is an unmatched newline-free fragment
      have hmatch_last : findMatch S last = none := by
        cases hml : findMatch S last with
        | none => rfl
        | some p =>
          obtain ⟨k, v⟩ := p
          exfalso
          apply hPlast
          unfold lineOut
          rw [hml]
          exact mkLine_proper (hS _ (findMatch_some_facts hml).1)
            (hv _ (findMatch_some_facts hml).1)
      have hlineOut_last : lineOut S last = last := by
        unfold lineOut
        rw [hmatch_last]
      have htail_last : TailLine last := by
        rcases hlast_shape with hp | ht
        · exfalso
          apply hPlast
          rw [hlineOut_last]
          exact hp
        · exact ht
      have hlast_not_named : ∀ kv ∈ S, namesB last kv.1 = false := by
        intro kv hkvS
        exact findMatch_none_names hmatch_last (List.mem_map_of_mem _ hkvS)
      have hcover₂ : ∀ kv ∈ S, (init ++ [last]).any (fun l => namesB l kv.1) = true →
          ∃ l0 ∈ init, namesB l0 kv.1 = true := by
        intro kv hkvS hnamed
        obtain ⟨l0, hl0, hn0⟩ := List.any_eq_true.mp hnamed
        rcases List.mem_append.mp hl0 with h1 | h2
        · exact ⟨l0, h1, hn0⟩
        · rw [List.mem_singleton] at h2
          subst h2
          rw [hlast_not_named kv hkvS] at hn0
          cases hn0
      by_cases hmiss : missingF S (init ++ [last]) = []
      · have hmerge : mergeEnvLines S (init ++ [last]) = (init ++ [last]).map (lineOut S) := by
          rw [mergeEnvLines_eq hS, hmiss]
          rw [if_neg (fun hand => hand.2 rfl)]
          simp
        rw [hmerge, hbody, hlineOut_last]
        rw [List.flatten_append]
        simp only [List.flatten_cons, List.flatten_nil, List.append_nil]
        rw [splitLines_flatten_tail _ last hinit_map_prop htail_last]
        constructor
        · intro l hl
          rcases List.mem_append.mp hl with h1 | h2
          · obtain ⟨l0, _, rfl⟩ := List.mem_map.mp h1
            exact lineOut_stable hS l0
          · rw [List.mem_singleton] at h2
            subst h2
            exact hlineOut_last
        · intro kv hkvS
          have hnamed : (init ++ [last]).any (fun l => namesB l kv.1) = true := by
            cases hany : (init ++ [last]).any (fun l => namesB l kv.1) with
            | true => rfl
            | false =>
              exfalso
              have hmem : kv ∈ missingF S (init ++ [last]) := by
                unfold missingF
                rw [List.mem_filter]
                exact ⟨hkvS, by rw [hany]; rfl⟩
              rw [hmiss] at hmem
              simp at hmem
          obtain ⟨l0, hl0, hn0⟩ := hcover₂ kv hkvS hnamed
          obtain ⟨hmem0, hname0⟩ := hcover_named kv hkvS l0 hl0 hn0
          exact ⟨lineOut S l0, List.mem_append.mpr (Or.inl hmem0), hname0⟩
      · have hnf : needsFiller ((init ++ [last]).map (lineOut S)) = true := by
          rw [hbody, hlineOut_last, needsFiller_concat, tailLine_endsWithNewline htail_last]
          rfl
        have hmerge : mergeEnvLines S (init ++ [last]) =
            ((init ++ [last]).map (lineOut S) ++ [['\n']]) ++
              (missingF S (init ++ [last])).map (fun kv => mkLine kv.1 kv.2) := by
          rw [mergeEnvLines_eq hS, if_pos ⟨hnf, hmiss⟩]
        have hflat : (mergeEnvLines S (init ++ [last])).flatten =
            ((init.map (lineOut S) ++ [last ++ ['\n']]) ++
              (missingF S (init ++ [last])).map (fun kv => mkLine kv.1 kv.2)).flatten := by
          rw [hmerge, hbody, hlineOut_last]
          simp [List.flatten_append]
        rw [hflat]
        have hall_prop : ∀ x ∈ (init.map (lineOut S) ++ [last ++ ['\n']]) ++
            (missingF S (init ++ [last])).map (fun kv => mkLine kv.1 kv.2), ProperLine x := by
          intro x hx
          rcases List.mem_append.mp hx with h1 | h2
          · rcases List.mem_append.mp h1 with h1a | h1b
            · exact hinit_map_prop x h1a
            · rw [List.mem_singleton] at h1b
              subst h1b
              exact ⟨last, rfl, htail_last.2⟩
          · exact (happ_mem _ x h2).1
        rw [splitLines_flatten_proper _ hall_prop]
        constructor
        · intro l hl
          rcases List.mem_append.mp hl with h1 | h2
          · rcases List.mem_append.mp h1 with h1a | h1b
            · obtain ⟨l0, _, rfl⟩ := List.mem_map.mp h1a
              exact lineOut_stable hS l0
            · rw [List.mem_singleton] at h1b
              subst h1b
              unfold lineOut
              rw [findMatch_newline, hmatch_last]
          · exact (happ_mem _ l h2).2
        · intro kv hkvS
          by_cases hnamed : (init ++ [last]).any (fun l => namesB l kv.1) = true
          · obtain ⟨l0, hl0, hn0⟩ := hcover₂ kv hkvS hnamed
            obtain ⟨hmem0, hname0⟩ := hcover_named kv hkvS l0 hl0 hn0
            exact ⟨lineOut S l0,
              List.mem_append.mpr (Or.inl (List.mem_append.mpr (Or.inl hmem0))), hname0⟩
          · refine ⟨mkLine kv.1 kv.2, ?_, namesB_mkLine_self _ _ (hS _ hkvS)⟩
            apply List.mem_append.mpr
            right
            apply List.mem_map_of_mem
            unfold missingF
            rw [List.mem_filter]
            refine ⟨hkvS, ?_⟩
            have hf : (init ++ [last]).any (fun l => namesB l kv.1) = false := by
              cases hany : (init ++ [last]).any (fun l => namesB l kv.1) with
              | false => rfl
              | true => exact absurd hany hnamed
            rw [hf]
            rfl

/-- Claim C3: for every file contents and every well-formed managed set (keys
    nonempty, whitespace- and `=`-free, values single-line, keys distinct as in
    a Python dict), the `.env` merge is idempotent on the file bytes. -/
theorem mergeEnvBytes_idempotent (S : List (Line × Line)) (hgood : goodEnv S)
    (s : List Char) : mergeEnvBytes S (mergeEnvBytes S s) = mergeEnvBytes S s := by
  have hS : GoodKeys S := fun kv h => (hgood.1 kv h).1
  obtain ⟨hstab, hcov⟩ := merge_lines_stable S hgood (splitLines s)
    (splitLines_dropLast s) (splitLines_shape s)
  unfold mergeEnvBytes
  rw [mergeEnvLines_eq hS, missingF_nil_of_covered S _ hcov]
  rw [if_neg (fun hand => hand.2 rfl)]
  rw [map_self_of_mem _ _ hstab]
  simp only [List.map_nil, List.append_nil]
  exact splitLines_flatten _

theorem namesB_nil (k : Line) : namesB [] k = false := by
  cases k with
  | nil => rfl
  | cons a t => rfl

theorem namesB_filler_false (k : Line) : namesB ['\n'] k = false := by
  have h := namesB_newline [] k
  rw [List.nil_append] at h
  rw [h]
  exact namesB_nil k

theorem countNaming_append (k : Line) (xs ys : List Line) :
    countNaming k (xs ++ ys) = countNaming k xs + countNaming k ys := by
  unfold countNaming
  rw [List.filter_append, List.length_append]

theorem countNaming_filler (k : Line) : countNaming k [['\n']] = 0 := by
  unfold countNaming
  rw [List.filter_cons_of_neg (by
    show ¬(namesB ['\n'] k = true)
    rw [namesB_filler_false]
    exact Bool.false_ne_true)]
  rfl

theorem namesB_lineOut {S : List (Line × Line)} (hS : GoodKeys S) {k : Line}
    (hk : k ∈ keysOf S) : ∀ l, namesB (lineOut S l) k = namesB l k := by
  intro l
  unfold lineOut
  cases hm : findMatch S l with
  | none => rfl
  | some p =>
    obtain ⟨k', v'⟩ := p
    obtain ⟨hmem', hn'⟩ := findMatch_some_facts hm
    obtain ⟨kv₀, hkv₀, hfst₀⟩ := List.mem_map.mp hk
    have hgk : goodKey k := hfst₀ ▸ hS kv₀ hkv₀
    have hgk' : goodKey k' := hS _ hmem'
    cases hb : namesB l k with
    | true =>
      have hke : k = k' := findMatch_key_of_names hS hm hk hb
      exact (namesB_mkLine_iff k' v' hgk' hgk).mpr hke
    | false =>
      cases hb2 : namesB (mkLine k' v') k with
      | false => rfl
      | true =>
        have hke : k = k' := (namesB_mkLine_iff k' v' hgk' hgk).mp hb2
        rw [hke, hn'] at hb
        exact absurd hb (by decide)

theorem namesB_lineOut_notin {S : List (Line × Line)} (hS : GoodKeys S) {k : Line}
    (hgk : goodKey k) (hk : k ∉ keysOf S) :
    ∀ l, namesB (lineOut S l) k = namesB l k := by
  intro l
  unfold lineOut
  cases hm : findMatch S l with
  | none => rfl
  | some p =>
    obtain ⟨k', v'⟩ := p
    obtain ⟨hmem', hn'⟩ := findMatch_some_facts hm
    have hne : ¬(k = k') := fun he =>
      hk (by rw [he]; exact List.mem_map_of_mem Prod.fst hmem')
    have h1 : namesB (mkLine k' v') k = false := by
      cases hb : namesB (mkLine k' v') k with
      | false => rfl
      | true => exact absurd ((namesB_mkLine_iff k' v' (hS _ hmem') hgk).mp hb) hne
    have h2 : namesB l k = false := by
      cases hb : namesB l k with
      | false => rfl
      | true => exact absurd (namesB_unique hgk (hS _ hmem') hb hn') hne
    rw [h1, h2]

theorem countNaming_map_eq {S : List (Line × Line)} {k : Line}
    (h : ∀ l, namesB (lineOut S l) k = namesB l k) :
    ∀ F : List Line, countNaming k (F.map (lineOut S)) = countNaming k F := by
  intro F
  induction F with
  | nil => rfl
  | cons l F ih =>
    unfold countNaming at ih ⊢
    rw [List.map_cons]
    cases hb : namesB l k with
    | true =>
      rw [List.filter_cons_of_pos (by
          show namesB (lineOut S l) k = true
          rw [h l]
          exact hb),
        List.filter_cons_of_pos (by show namesB l k = true; exact hb),
        List.length_cons, List.length_cons, ih]
    | false =>
      rw [List.filter_cons_of_neg (by
          show ¬(namesB (lineOut S l) k = true)
          rw [h l, hb]
          exact Bool.false_ne_true),
        List.filter_cons_of_neg (by
          show ¬(namesB l k = true)
          rw [hb]
          exact Bool.false_ne_true), ih]

theorem countNaming_mkLines_zero : ∀ (M : List (Line × Line)), GoodKeys M →
    ∀ {k : Line}, goodKey k → k ∉ keysOf M →
    countNaming k (M.map (fun p => mkLine p.1 p.2)) = 0 := by
  intro M
  induction M with
  | nil => intro _ k _ _; rfl
  | cons a M ih =>
    intro hG k hgk hnot
    have hga : goodKey a.1 := hG a (List.mem_cons_self _ _)
    have hne : ¬(k = a.1) := fun he => hnot (by rw [he]; exact List.mem_cons_self _ _)
    unfold countNaming
    rw [List.map_cons, List.filter_cons_of_neg (by
      show ¬(namesB (mkLine a.1 a.2) k = true)
      intro hc
      exact hne ((namesB_mkLine_iff a.1 a.2 hga hgk).mp hc))]
    have hnotM : k ∉ keysOf M := fun hm => hnot (List.mem_cons_of_mem _ hm)
    have h0 := ih (fun p hp => hG p (List.mem_cons_of_mem _ hp)) hgk hnotM
    unfold countNaming at h0
    exact h0

theorem countNaming_mkLines_one : ∀ (M : List (Line × Line)), GoodKeys M →
    (keysOf M).Nodup → ∀ {k : Line}, k ∈ keysOf M →
    countNaming k (M.map (fun p => mkLine p.1 p.2)) = 1 := by
  intro M
  induction M with
  | nil =>
    intro _ _ k hk
    exact absurd hk (List.not_mem_nil k)
  | cons a M ih =>
    intro hG hnd k hk
    have hga : goodKey a.1 := hG a (List.mem_cons_self _ _)
    have hGM : GoodKeys M := fun p hp => hG p (List.mem_cons_of_mem _ hp)
    have hnd2 : (a.1 :: keysOf M).Nodup := hnd
    rw [List.nodup_cons] at hnd2
    have hk2 : k ∈ a.1 :: keysOf M := hk
    rcases List.mem_cons.mp hk2 with he | hkM
    · have hgk : goodKey k := by rw [he]; exact hga
      unfold countNaming
      rw [List.map_cons, List.filter_cons_of_pos (by
        show namesB (mkLine a.1 a.2) k = true
        exact (namesB_mkLine_iff a.1 a.2 hga hgk).mpr he), List.length_cons]
      have h0 := countNaming_mkLines_zero M hGM hgk (by rw [he]; exact hnd2.1)
      unfold countNaming at h0
      rw [h0]
    · have hgk : goodKey k := by
        obtain ⟨p, hp, hfst⟩ := List.mem_map.mp hkM
        rw [← hfst]
        exact hGM p hp
      have hne : ¬(k = a.1) := fun he => hnd2.1 (by rw [← he]; exact hkM)
      unfold countNaming
      rw [List.map_cons, List.filter_cons_of_neg (by
        show ¬(namesB (mkLine a.1 a.2) k = true)
        intro hc
        exact hne ((namesB_mkLine_iff a.1 a.2 hga hgk).mp hc))]
      have h1 := ih hGM hnd2.2 hkM
      unfold countNaming at h1
      exact h1

theorem keys_nodup_eq : ∀ (S : List (Line × Line)), (keysOf S).Nodup →
    ∀ p q : Line × Line, p ∈ S → q ∈ S → p.1 = q.1 → p = q := by
  intro S
  induction S with
  | nil => intro _ p q hp _ _; cases hp
  | cons a S ih =>
    intro hnd p q hp hq he
    have hnd2 : (a.1 :: keysOf S).Nodup := hnd
    rw [List.nodup_cons] at hnd2
    rcases List.mem_cons.mp hp with hpa | hp2 <;> rcases List.mem_cons.mp hq with hqa | hq2
    · rw [hpa, hqa]
    · exfalso
      apply hnd2.1
      have h3 : q.1 ∈ keysOf S := List.mem_map_of_mem Prod.fst hq2
      rw [hpa] at he
      rw [he]
      exact h3
    · exfalso
      apply hnd2.1
      have h3 : p.1 ∈ keysOf S := List.mem_map_of_mem Prod.fst hp2
      rw [hqa] at he
      rw [← he]
      exact h3
    · exact ih hnd2.2 p q hp2 hq2 he

theorem missingF_mem {S : List (Line × Line)} {F : List Line} {p : Line × Line}
    (hp : p ∈ missingF S F) : p ∈ S ∧ F.any (fun l => namesB l p.1) = false := by
  unfold missingF at hp
  have h1 := List.mem_filter.mp hp
  have h2 : (!(F.any fun l => namesB l p.1)) = true := h1.2
  refine ⟨h1.1, ?_⟩
  cases hany : F.any (fun l => namesB l p.1) with
  | false => rfl
  | true =>
    rw [hany] at h2
    exact absurd h2 (by decide)

theorem missingF_mem_of {S : List (Line × Line)} {F : List Line} {kv : Line × Line}
    (hkv : kv ∈ S) (hany : F.any (fun l => namesB l kv.1) = false) :
    kv ∈ missingF S F := by
  unfold missingF
  rw [List.mem_filter]
  refine ⟨hkv, ?_⟩
  show (!(F.any fun l => namesB l kv.1)) = true
  rw [hany]
  rfl

theorem missingF_keys_nodup {S : List (Line × Line)} {F : List Line}
    (hnd : (keysOf S).Nodup) : (keysOf (missingF S F)).Nodup := by
  unfold keysOf missingF
  exact List.Nodup.sublist (List.Sublist.map Prod.fst (List.filter_sublist S)) hnd

theorem merge_getElem {S : List (Line × Line)} (hS : GoodKeys S) {F : List Line}
    {i : Nat} {l : Line} (h : F[i]? = some l) :
    (mergeEnvLines S F)[i]? = some (lineOut S l) := by
  have hi : i < F.length := by
    by_contra hc
    push_neg at hc
    rw [List.getElem?_eq_none hc] at h
    cases h
  have hmap : (F.map (lineOut S))[i]? = some (lineOut S l) := by
    rw [List.getElem?_map, h]
    rfl
  have hilen : i < (F.map (lineOut S)).length := by
    rw [List.length_map]
    exact hi
  rw [mergeEnvLines_eq hS]
  by_cases hc : needsFiller (F.map (lineOut S)) = true ∧ missingF S F ≠ []
  · rw [if_pos hc, List.append_assoc, List.getElem?_append_left hilen]
    exact hmap
  · rw [if_neg hc, List.getElem?_append_left hilen]
    exact hmap

theorem goodEnv_dbport : goodEnv [("DB_PORT".data, "3306".data)] := by
  unfold goodEnv goodKey keysOf
  refine ⟨?_, ?_⟩ <;> decide

/-- Witness for C3 at a concrete managed set and file. -/
theorem mergeEnvBytes_idempotent_witness :
    goodEnv [("DB_PORT".data, "3306".data)] ∧
    mergeEnvBytes [("DB_PORT".data, "3306".data)]
        (mergeEnvBytes [("DB_PORT".data, "3306".data)] "# x\nDB_PORT=5\nREST=1".data) =
      mergeEnvBytes [("DB_PORT".data, "3306".data)] "# x\nDB_PORT=5\nREST=1".data :=
  ⟨goodEnv_dbport, mergeEnvBytes_idempotent _ goodEnv_dbport _⟩

set_option maxRecDepth 4096 in
/-- Claim C4 counterexample: on a file with two lines naming DB_PORT, the
    program's merge outputs two `DB_PORT=3306` lines — the managed key does not
    appear exactly once, and a line is duplicated. -/
theorem merge_managed_once_counterexample :
    countNaming "DB_PORT".data
      (mergeEnvLines (env_vars "A".data "d".data "u".data "p".data)
        ["DB_PORT=3305\n".data, "DB_PORT=3304\n".data]) = 2 ∧
    (mergeEnvLines (env_vars "A".data "d".data "u".data "p".data)
        ["DB_PORT=3305\n".data, "DB_PORT=3304\n".data])[0]? =
      (mergeEnvLines (env_vars "A".data "d".data "u".data "p".data)
        ["DB_PORT=3305\n".data, "DB_PORT=3304\n".data])[1]? := by
  constructor
  · decide
  · decide

/-- Claim C4 (amended): if no managed key is named by more than one input line,
    then after the merge every managed key appears exactly once; every input
    line keeps its position, with a line naming no managed key copied verbatim
    and a line naming managed key K replaced by `K=value`. -/
theorem merge_managed_once (S : List (Line × Line)) (hgood : goodEnv S) (F : List Line)
    (hsingle : ∀ kv ∈ S, countNaming kv.1 F ≤ 1) :
    (∀ kv ∈ S, countNaming kv.1 (mergeEnvLines S F) = 1) ∧
    (∀ (i : Nat) (l : Line), F[i]? = some l →
      (mergeEnvLines S F)[i]? = some (lineOut S l)) ∧
    (∀ l ∈ F, (∀ kv ∈ S, namesB l kv.1 = false) → lineOut S l = l) ∧
    (∀ l ∈ F, ∀ kv ∈ S, namesB l kv.1 = true → lineOut S l = mkLine kv.1 kv.2) := by
  obtain ⟨hwf, hnd⟩ := hgood
  have hS : GoodKeys S := fun kv h => (hwf kv h).1
  refine ⟨?_, fun i l h => merge_getElem hS h, ?_, ?_⟩
  · intro kv hkv
    have hgk : goodKey kv.1 := hS kv hkv
    have hpt : ∀ l, namesB (lineOut S l) kv.1 = namesB l kv.1 :=
      namesB_lineOut hS (List.mem_map_of_mem Prod.fst hkv)
    have hbody : countNaming kv.1 (F.map (lineOut S)) = countNaming kv.1 F :=
      countNaming_map_eq hpt F
    have hGmiss : GoodKeys (missingF S F) := fun p hp => hS p (missingF_mem hp).1
    have happ0 : F.any (fun l => namesB l kv.1) = true →
        countNaming kv.1 ((missingF S F).map (fun p => mkLine p.1 p.2)) = 0 := by
      intro hany
      apply countNaming_mkLines_zero _ hGmiss hgk
      intro hkmem
      obtain ⟨p, hp, hfst⟩ := List.mem_map.mp hkmem
      have h2 := (missingF_mem hp).2
      rw [hfst, hany] at h2
      cases h2
    have hbody1 : F.any (fun l => namesB l kv.1) = true → countNaming kv.1 F = 1 := by
      intro hany
      obtain ⟨l, hl, hn⟩ := List.any_eq_true.mp hany
      have hge : 1 ≤ countNaming kv.1 F := by
        unfold countNaming
        have hmem : l ∈ F.filter (fun l => namesB l kv.1) := List.mem_filter.mpr ⟨hl, hn⟩
        exact List.length_pos.mpr (List.ne_nil_of_mem hmem)
      exact Nat.le_antisymm (hsingle kv hkv) hge
    have hbody0 : F.any (fun l => namesB l kv.1) = false → countNaming kv.1 F = 0 := by
      intro hany
      unfold countNaming
      rw [List.filter_eq_nil_iff.mpr (by
        intro a ha hcontra
        have h3 : F.any (fun l => namesB l kv.1) = true :=
          List.any_eq_true.mpr ⟨a, ha, hcontra⟩
        rw [hany] at h3
        cases h3)]
      rfl
    have happ1 : F.any (fun l => namesB l kv.1) = false →
        countNaming kv.1 ((missingF S F).map (fun p => mkLine p.1 p.2)) = 1 := by
      intro hany
      apply countNaming_mkLines_one _ hGmiss (missingF_keys_nodup hnd)
      exact List.mem_map_of_mem Prod.fst (missingF_mem_of hkv hany)
    rw [mergeEnvLines_eq hS]
    cases hany : F.any (fun l => namesB l kv.1) with
    | true =>
      by_cases hcnd : needsFiller (F.map (lineOut S)) = true ∧ missingF S F ≠ []
      · rw [if_pos hcnd, countNaming_append, countNaming_append, countNaming_filler,
          hbody, hbody1 hany, happ0 hany]
      · rw [if_neg hcnd, countNaming_append, hbody, hbody1 hany, happ0 hany]
    | false =>
      by_cases hcnd : needsFiller (F.map (lineOut S)) = true ∧ missingF S F ≠ []
      · rw [if_pos hcnd, countNaming_append, countNaming_append, countNaming_filler,
          hbody, hbody0 hany, happ1 hany]
      · rw [if_neg hcnd, countNaming_append, hbody, hbody0 hany, happ1 hany]
  · intro l _ hnone
    unfold lineOut
    cases hm : findMatch S l with
    | none => rfl
    | some p =>
      obtain ⟨k, v⟩ := p
      obtain ⟨hmem, hn⟩ := findMatch_some_facts hm
      have hf : namesB l k = false := hnone (k, v) hmem
      rw [hf] at hn
      cases hn
  · intro l _ kv hkv hn
    obtain ⟨⟨k', v'⟩, hm⟩ :=
      findMatch_isSome_of (show (kv.1, kv.2) ∈ S by rw [Prod.mk.eta]; exact hkv) hn
    have hke : kv.1 = k' := findMatch_key_of_names hS hm (List.mem_map_of_mem Prod.fst hkv) hn
    have hmem' : (k', v') ∈ S := (findMatch_some_facts hm).1
    have hpe : (k', v') = kv := keys_nodup_eq S hnd (k', v') kv hmem' hkv hke.symm
    unfold lineOut
    rw [hm]
    have h1 : k' = kv.1 := congrArg Prod.fst hpe
    have h2 : v' = kv.2 := congrArg Prod.snd hpe
    rw [h1, h2]

/-- Witness for the amended C4 — scenario E: the file already holds
    `DB_PORT=3306` and the managed set specifies `DB_PORT=3306`; exactly one
    such line results, at its position, and the file bytes are unchanged. -/
theorem merge_managed_once_witness :
    goodEnv [("DB_PORT".data, "3306".data)] ∧
    (∀ kv ∈ [("DB_PORT".data, "3306".data)],
      countNaming kv.1 ["A=1\n".data, "DB_PORT=3306\n".data] ≤ 1) ∧
    ((∀ kv ∈ [("DB_PORT".data, "3306".data)],
        countNaming kv.1 (mergeEnvLines [("DB_PORT".data, "3306".data)]
          ["A=1\n".data, "DB_PORT=3306\n".data]) = 1) ∧
      (∀ (i : Nat) (l : Line), (["A=1\n".data, "DB_PORT=3306\n".data] : List Line)[i]? = some l →
        (mergeEnvLines [("DB_PORT".data, "3306".data)]
          ["A=1\n".data, "DB_PORT=3306\n".data])[i]? =
          some (lineOut [("DB_PORT".data, "3306".data)] l)) ∧
      (∀ l ∈ (["A=1\n".data, "DB_PORT=3306\n".data] : List Line),
        (∀ kv ∈ [("DB_PORT".data, "3306".data)], namesB l kv.1 = false) →
        lineOut [("DB_PORT".data, "3306".data)] l = l) ∧
      (∀ l ∈ (["A=1\n".data, "DB_PORT=3306\n".data] : List Line),
        ∀ kv ∈ [("DB_PORT".data, "3306".data)], namesB l kv.1 = true →
        lineOut [("DB_PORT".data, "3306".data)] l = mkLine kv.1 kv.2)) ∧
    mergeEnvBytes [("DB_PORT".data, "3306".data)] "A=1\nDB_PORT=3306\n".data =
      "A=1\nDB_PORT=3306\n".data :=
  ⟨goodEnv_dbport, by decide,
    merge_managed_once _ goodEnv_dbport _ (by decide), by decide⟩

/-- Claim C7: for every parameterisation of the managed set and every input
    file, a line naming APP_KEY is preserved verbatim at its original position,
    and the number of APP_KEY lines is unchanged by the merge — an existing
    APP_KEY value is never overwritten and never re-appended. -/
theorem merge_preserves_APP_KEY (app db_name db_user db_pass : Line) (F : List Line)
    (i : Nat) (l : Line) (hF : F[i]? = some l) (hn : namesB l APP_KEY = true) :
    (mergeEnvLines (env_vars app db_name db_user db_pass) F)[i]? = some l ∧
    countNaming APP_KEY (mergeEnvLines (env_vars app db_name db_user db_pass) F) =
      countNaming APP_KEY F := by
  have hkeys : ∀ k ∈ keysOf (env_vars app db_name db_user db_pass), goodKey k := by
    intro k hk
    exact (by decide : ∀ k ∈ keysOf (env_vars [] [] [] []), goodKey k) k hk
  have hS : GoodKeys (env_vars app db_name db_user db_pass) := fun kv hkv =>
    hkeys kv.1 (List.mem_map_of_mem Prod.fst hkv)
  have hnotin : APP_KEY ∉ keysOf (env_vars app db_name db_user db_pass) := by
    intro hmem
    exact (by decide : APP_KEY ∉ keysOf (env_vars [] [] [] [])) hmem
  have hGmiss : GoodKeys (missingF (env_vars app db_name db_user db_pass) F) :=
    fun p hp => hS p (missingF_mem hp).1
  have hnotmiss : APP_KEY ∉ keysOf (missingF (env_vars app db_name db_user db_pass) F) := by
    intro hmm
    obtain ⟨p, hp, hfst⟩ := List.mem_map.mp hmm
    apply hnotin
    rw [← hfst]
    exact List.mem_map_of_mem Prod.fst (missingF_mem hp).1
  have hlo : lineOut (env_vars app db_name db_user db_pass) l = l := by
    unfold lineOut
    cases hm : findMatch (env_vars app db_name db_user db_pass) l with
    | none => rfl
    | some p =>
      obtain ⟨k, v⟩ := p
      exfalso
      obtain ⟨hmem, hnk⟩ := findMatch_some_facts hm
      have heq : APP_KEY = k := namesB_unique goodKey_APP_KEY (hS _ hmem) hn hnk
      exact hnotin (by rw [heq]; exact List.mem_map_of_mem Prod.fst hmem)
  constructor
  · have h2 := merge_getElem hS hF
    rw [hlo] at h2
    exact h2
  · have hpt := namesB_lineOut_notin hS goodKey_APP_KEY hnotin
    rw [mergeEnvLines_eq hS]
    by_cases hcnd : needsFiller (F.map (lineOut (env_vars app db_name db_user db_pass))) = true ∧
        missingF (env_vars app db_name db_user db_pass) F ≠ []
    · rw [if_pos hcnd, countNaming_append, countNaming_append, countNaming_filler,
        countNaming_map_eq hpt, countNaming_mkLines_zero _ hGmiss goodKey_APP_KEY hnotmiss]
      rfl
    · rw [if_neg hcnd, countNaming_append,
        countNaming_map_eq hpt, countNaming_mkLines_zero _ hGmiss goodKey_APP_KEY hnotmiss]
      rfl

/-- Witness for C7 at a concrete pre-populated APP_KEY line. -/
theorem merge_preserves_APP_KEY_witness :
    (["APP_KEY=base64:xyz\n".data] : List Line)[0]? = some "APP_KEY=base64:xyz\n".data ∧
    namesB "APP_KEY=base64:xyz\n".data APP_KEY = true ∧
    ((mergeEnvLines (env_vars "A".data "d".data "u".data "p".data)
        ["APP_KEY=base64:xyz\n".data])[0]? = some "APP_KEY=base64:xyz\n".data ∧
      countNaming APP_KEY (mergeEnvLines (env_vars "A".data "d".data "u".data "p".data)
        ["APP_KEY=base64:xyz\n".data]) =
        countNaming APP_KEY ["APP_KEY=base64:xyz\n".data]) :=
  ⟨rfl, by decide,
    merge_preserves_APP_KEY "A".data "d".data "u".data "p".data
      ["APP_KEY=base64:xyz\n".data] 0 "APP_KEY=base64:xyz\n".data rfl (by decide)⟩

end Bootstrap
